import Mathlib

/-!
Verification development for the NYSE-XDP market-data replay and
market-making simulator (C++ sources under src/src).

Shallow embedding conventions:
* C++ `double` price and PnL arithmetic is modelled exactly over `ℚ`
  (all prices in the feed are decoded from integers, so the source
  relies on exact comparisons); the online learning model, which uses
  `std::sqrt` and `std::exp`, is modelled over `ℝ`.
* `uint32_t` / `uint64_t` volumes and counters are modelled as `ℕ`.
  Every subtraction performed by the source is guarded so that it
  cannot underflow on the states the theorems quantify over, hence
  truncated `ℕ` subtraction agrees with the machine arithmetic there.
* `std::map<double, X>` ladders are modelled as association lists kept
  in the iteration order of the map (bids descending, asks ascending);
  `std::unordered_map` tables are association lists with unique keys.
* The mersenne-twister draws feeding the latency and queue-position
  distributions are modelled by an oracle list of rational samples
  carried in the simulator state.
-/

set_option maxHeartbeats 1600000

/-- Order side, `'B'` or `'S'` in the source (`order_book.hpp`). -/
inductive Side where
  | B : Side
  | S : Side
deriving DecidableEq, Repr

/-- Resting order record (`struct Order` in `order_book.hpp`); the
wall-clock timestamp field is dropped, nothing in the claims reads it. -/
structure Order where
  order_id : ℕ
  price : ℚ
  volume : ℕ
  side : Side
deriving DecidableEq, Repr

/-- A price ladder: `std::map<double, uint32_t>` as an association list in
map iteration order. -/
abbrev Ladder := List (ℚ × ℕ)

/-- Lookup of a price level (`map::find`). -/
def ladderFind : Ladder → ℚ → Option ℕ
  | [], _ => none
  | (q, w) :: rest, p => if p = q then some w else ladderFind rest p

/-- Volume at a price level, `0` when the level is absent. -/
def ladderVol (l : Ladder) (p : ℚ) : ℕ := (ladderFind l p).getD 0

/-- Comparator for the bid ladder (`std::greater<double>`): `p` sorts
before `q` when `p > q`. -/
def bidCmp (p q : ℚ) : Bool := decide (q < p)

/-- Comparator for the ask ladder (`std::less<double>`). -/
def askCmp (p q : ℚ) : Bool := decide (p < q)

/-- `ladder[p] += v` — `operator[]` inserts a default entry at the
comparator position when absent, then adds `v`. -/
def ladderAdd (cmp : ℚ → ℚ → Bool) : Ladder → ℚ → ℕ → Ladder
  | [], p, v => [(p, v)]
  | (q, w) :: rest, p, v =>
    if p = q then (q, w + v) :: rest
    else if cmp p q then (p, v) :: (q, w) :: rest
    else (q, w) :: ladderAdd cmp rest p v

/-- `map::erase` of a key. -/
def ladderErase : Ladder → ℚ → Ladder
  | [], _ => []
  | (q, w) :: rest, p => if p = q then rest else (q, w) :: ladderErase rest p

/-- Overwrite the value stored at an existing key. -/
def ladderSet : Ladder → ℚ → ℕ → Ladder
  | [], _, _ => []
  | (q, w) :: rest, p, v => if p = q then (q, v) :: rest else (q, w) :: ladderSet rest p v

/-- Sum of the level volumes of a ladder (a full scan). -/
def ladderSum (l : Ladder) : ℕ := (l.map Prod.snd).sum

/-- `OrderBook::remove_volume_from_bids` / `..._from_asks`: removes up to
`v` shares from level `p`, erasing the level when it is exhausted, and
decrements the running total by the amount actually removed.  Returns the
new ladder and the new running total. -/
def remove_volume (l : Ladder) (total : ℕ) (p : ℚ) (v : ℕ) : Ladder × ℕ :=
  match ladderFind l p with
  | none => (l, total)
  | some w =>
    if w ≤ v then (ladderErase l p, total - w)
    else (ladderSet l p (w - v), total - v)

/-- `bids_[p] -= v` in the partial-fill branch of `execute_order`:
`operator[]` creates a zero entry when the key is absent.  In C++ the
subtraction is `uint32_t` and would wrap on underflow; on every state the
theorems below quantify over the level holds at least `v`, where truncated
subtraction agrees with the machine arithmetic. -/
def ladderSubAt (cmp : ℚ → ℚ → Bool) (l : Ladder) (p : ℚ) (v : ℕ) : Ladder :=
  match ladderFind l p with
  | some w => ladderSet l p (w - v)
  | none => ladderAdd cmp l p (0 - v)

/-- Per-price-level toxicity counters (`OrderBook::ToxicityMetrics`). -/
structure ToxicityMetrics where
  adds : ℕ := 0
  cancels : ℕ := 0
  total_volume_added : ℕ := 0
  total_volume_cancelled : ℕ := 0
  ping_count : ℕ := 0
  large_order_count : ℕ := 0
  odd_lot_count : ℕ := 0
  high_precision_price_count : ℕ := 0
  resistance_level_count : ℕ := 0
deriving DecidableEq, Repr

/-- Toxicity map: `std::map<double, ToxicityMetrics>` in iteration order. -/
abbrev ToxMap := List (ℚ × ToxicityMetrics)

def toxFind : ToxMap → ℚ → Option ToxicityMetrics
  | [], _ => none
  | (q, m) :: rest, p => if p = q then some m else toxFind rest p

/-- `tox_map[p]` with `operator[]` default construction. -/
def toxGetD (m : ToxMap) (p : ℚ) : ToxicityMetrics := (toxFind m p).getD {}

/-- Store a metrics record at `p`, inserting at the comparator position
when absent (`operator[]` insertion followed by mutation). -/
def toxSet (cmp : ℚ → ℚ → Bool) : ToxMap → ℚ → ToxicityMetrics → ToxMap
  | [], p, tm => [(p, tm)]
  | (q, w) :: rest, p, tm =>
    if p = q then (q, tm) :: rest
    else if cmp p q then (p, tm) :: (q, w) :: rest
    else (q, w) :: toxSet cmp rest p tm

/-- Mutate the metrics stored at `p` through `operator[]`. -/
def toxAdjust (cmp : ℚ → ℚ → Bool) (m : ToxMap) (p : ℚ)
    (f : ToxicityMetrics → ToxicityMetrics) : ToxMap :=
  toxSet cmp m p (f (toxGetD m p))

/-- `std::round` — half away from zero (for the nonnegative arguments the
book feeds it, this is `⌊x + 1/2⌋`). -/
def roundHalfAway (x : ℚ) : ℤ := if x < 0 then -round (-x) else round x

/-- `OrderBook::update_toxicity_on_add`. -/
def update_toxicity_on_add (tm : ToxicityMetrics) (price : ℚ) (volume : ℕ) :
    ToxicityMetrics :=
  let tm := { tm with
    adds := tm.adds + 1
    total_volume_added := tm.total_volume_added + volume }
  let tm := if volume < 10 then { tm with ping_count := tm.ping_count + 1 } else tm
  let tm := if 200 < volume then
    { tm with large_order_count := tm.large_order_count + 1 } else tm
  let tm := if volume % 100 ≠ 0 then
    { tm with odd_lot_count := tm.odd_lot_count + 1 } else tm
  let decimal_part : ℚ := price - ⌊price⌋
  let rounded_2dec : ℚ := (roundHalfAway (price * 100) : ℚ) / 100
  let tm := if 1 / 10000 < |price - rounded_2dec| then
    { tm with high_precision_price_count := tm.high_precision_price_count + 1 } else tm
  let decimal_rounded : ℚ := (roundHalfAway (decimal_part * 100) : ℚ) / 100
  if decimal_rounded = 95/100 ∨ decimal_rounded = 99/100 ∨ decimal_rounded = 98/100 ∨
      decimal_rounded = 1/100 ∨ decimal_rounded = 5/100 then
    { tm with resistance_level_count := tm.resistance_level_count + 1 }
  else tm

/-- Derived statistics (`OrderBook::BookStats`). -/
structure BookStats where
  best_bid : ℚ := 0
  best_ask : ℚ := 0
  spread : ℚ := 0
  mid_price : ℚ := 0
  total_bid_qty : ℕ := 0
  total_ask_qty : ℕ := 0
  bid_levels : ℕ := 0
  ask_levels : ℕ := 0
deriving DecidableEq, Repr

/-- The order-id table: `std::unordered_map<uint64_t, Order>` as an
association list with unique keys. -/
abbrev ActiveOrders := List (ℕ × Order)

def aoFind : ActiveOrders → ℕ → Option Order
  | [], _ => none
  | (i, o) :: rest, id => if id = i then some o else aoFind rest id

/-- `active_orders_[id] = o`: overwrite when present, insert when absent. -/
def aoSet : ActiveOrders → ℕ → Order → ActiveOrders
  | [], id, o => [(id, o)]
  | (i, e) :: rest, id, o =>
    if id = i then (i, o) :: rest else (i, e) :: aoSet rest id o

def aoErase : ActiveOrders → ℕ → ActiveOrders
  | [], _ => []
  | (i, e) :: rest, id => if id = i then rest else (i, e) :: aoErase rest id

/-- Sum of resting-order volumes on side `sd` at exactly price `p`. -/
def ordVolAt : ActiveOrders → Side → ℚ → ℕ
  | [], _, _ => 0
  | (_, o) :: rest, sd, p =>
    (if o.side = sd ∧ p = o.price then o.volume else 0) + ordVolAt rest sd p

/-- Sum of resting-order volumes on side `sd` (all prices). -/
def sideVol : ActiveOrders → Side → ℕ
  | [], _ => 0
  | (_, o) :: rest, sd => (if o.side = sd then o.volume else 0) + sideVol rest sd

/-- The order book state (`class OrderBook`); the mutex and the
`last_update_` timestamp are dropped. -/
structure OrderBook where
  bids : Ladder := []
  asks : Ladder := []
  active_orders : ActiveOrders := []
  bid_toxicity : ToxMap := []
  ask_toxicity : ToxMap := []
  last_traded_price : ℚ := 0
  last_traded_volume : ℕ := 0
  total_bid_volume : ℕ := 0
  total_ask_volume : ℕ := 0
  stats : BookStats := {}
deriving DecidableEq, Repr

/-- A default-constructed book. -/
def OrderBook.empty : OrderBook := {}

/-- `OrderBook::update_stats`. -/
def update_stats (b : OrderBook) : OrderBook :=
  let bb : ℚ := match b.bids with | [] => 0 | (p, _) :: _ => p
  let ba : ℚ := match b.asks with | [] => 0 | (p, _) :: _ => p
  { b with stats :=
    { best_bid := bb
      best_ask := ba
      spread := if 0 < bb ∧ 0 < ba then ba - bb else 0
      mid_price := if 0 < bb ∧ 0 < ba then (bb + ba) / 2 else 0
      total_bid_qty := b.total_bid_volume
      total_ask_qty := b.total_ask_volume
      bid_levels := b.bids.length
      ask_levels := b.asks.length } }

/-- `OrderBook::add_order`.  Note: there is no duplicate-id guard in the
source; the ladder and the running total are always incremented and the
`active_orders_` entry is overwritten. -/
def add_order (b : OrderBook) (id : ℕ) (price : ℚ) (volume : ℕ) (sd : Side) :
    OrderBook :=
  let b :=
    if sd = Side.B then
      { b with
        bids := ladderAdd bidCmp b.bids price volume
        total_bid_volume := b.total_bid_volume + volume
        bid_toxicity := toxAdjust bidCmp b.bid_toxicity price
          (fun tm => update_toxicity_on_add tm price volume) }
    else
      { b with
        asks := ladderAdd askCmp b.asks price volume
        total_ask_volume := b.total_ask_volume + volume
        ask_toxicity := toxAdjust askCmp b.ask_toxicity price
          (fun tm => update_toxicity_on_add tm price volume) }
  update_stats { b with
    active_orders := aoSet b.active_orders id ⟨id, price, volume, sd⟩ }

/-- `OrderBook::modify_order`. -/
def modify_order (b : OrderBook) (id : ℕ) (new_price : ℚ) (new_volume : ℕ) :
    OrderBook :=
  match aoFind b.active_orders id with
  | none => b
  | some o =>
    let b :=
      if o.side = Side.B then
        let r := remove_volume b.bids b.total_bid_volume o.price o.volume
        { b with
          bids := ladderAdd bidCmp r.1 new_price new_volume
          total_bid_volume := r.2 + new_volume }
      else
        let r := remove_volume b.asks b.total_ask_volume o.price o.volume
        { b with
          asks := ladderAdd askCmp r.1 new_price new_volume
          total_ask_volume := r.2 + new_volume }
    update_stats { b with
      active_orders := aoSet b.active_orders id
        { o with price := new_price, volume := new_volume } }

/-- `OrderBook::delete_order`. -/
def delete_order (b : OrderBook) (id : ℕ) : OrderBook :=
  match aoFind b.active_orders id with
  | none => b
  | some o =>
    let b :=
      if o.side = Side.B then
        let tox := toxAdjust bidCmp b.bid_toxicity o.price
          (fun tm => { tm with
            cancels := tm.cancels + 1
            total_volume_cancelled := tm.total_volume_cancelled + o.volume })
        let r := remove_volume b.bids b.total_bid_volume o.price o.volume
        { b with bid_toxicity := tox, bids := r.1, total_bid_volume := r.2 }
      else
        let tox := toxAdjust askCmp b.ask_toxicity o.price
          (fun tm => { tm with
            cancels := tm.cancels + 1
            total_volume_cancelled := tm.total_volume_cancelled + o.volume })
        let r := remove_volume b.asks b.total_ask_volume o.price o.volume
        { b with ask_toxicity := tox, asks := r.1, total_ask_volume := r.2 }
    update_stats { b with active_orders := aoErase b.active_orders id }

/-- `OrderBook::execute_order`. -/
def execute_order (b : OrderBook) (id : ℕ) (executed_qty : ℕ) (trade_price : ℚ) :
    OrderBook :=
  match aoFind b.active_orders id with
  | none => b
  | some o =>
    let b :=
      if executed_qty < o.volume then
        let o' := { o with volume := o.volume - executed_qty }
        if o.side = Side.B then
          { b with
            bids := ladderSubAt bidCmp b.bids o.price executed_qty
            total_bid_volume := b.total_bid_volume - executed_qty
            active_orders := aoSet b.active_orders id o' }
        else
          { b with
            asks := ladderSubAt askCmp b.asks o.price executed_qty
            total_ask_volume := b.total_ask_volume - executed_qty
            active_orders := aoSet b.active_orders id o' }
      else
        let b :=
          if o.side = Side.B then
            let r := remove_volume b.bids b.total_bid_volume o.price o.volume
            { b with bids := r.1, total_bid_volume := r.2 }
          else
            let r := remove_volume b.asks b.total_ask_volume o.price o.volume
            { b with asks := r.1, total_ask_volume := r.2 }
        { b with active_orders := aoErase b.active_orders id }
    update_stats { b with
      last_traded_price := trade_price
      last_traded_volume := executed_qty }

/-- `OrderBook::clear`. -/
def OrderBook.clear (_b : OrderBook) : OrderBook := update_stats {}

/-- `OrderBook::restore_from_snapshot`: installs externally captured
ladders and order table, clears the toxicity maps, and recomputes the
running totals by a full scan. -/
def restore_from_snapshot (b : OrderBook) (bids asks : Ladder)
    (active : ActiveOrders) : OrderBook :=
  update_stats { b with
    bids := bids
    asks := asks
    active_orders := active
    bid_toxicity := []
    ask_toxicity := []
    total_bid_volume := ladderSum bids
    total_ask_volume := ladderSum asks }

/-! ### Ladder lemmas (towards the C1 invariant) -/

def ladderKeys (l : Ladder) : List ℚ := l.map Prod.fst

/-- Strict sortedness of a ladder in map iteration order. -/
def LadderSorted (cmp : ℚ → ℚ → Bool) (l : Ladder) : Prop :=
  l.Pairwise (fun a b => cmp a.1 b.1 = true)

lemma ladderVol_nil (p : ℚ) : ladderVol [] p = 0 := rfl

lemma ladderVol_cons (q : ℚ) (w : ℕ) (rest : Ladder) (p : ℚ) :
    ladderVol ((q, w) :: rest) p = if p = q then w else ladderVol rest p := by
  by_cases h : p = q <;> simp [ladderVol, ladderFind, h]

lemma ladderVol_eq_zero_of_not_mem {l : Ladder} {p : ℚ}
    (h : p ∉ ladderKeys l) : ladderVol l p = 0 := by
  induction l with
  | nil => rfl
  | cons a rest ih =>
    simp only [ladderKeys, List.map_cons, List.mem_cons] at h
    push_neg at h
    obtain ⟨q, w⟩ := a
    rw [ladderVol_cons, if_neg h.1]
    exact ih h.2

lemma ladderFind_mem_vol {l : Ladder} {p : ℚ} {w : ℕ}
    (h : ladderFind l p = some w) : p ∈ ladderKeys l ∧ ladderVol l p = w := by
  induction l with
  | nil => simp [ladderFind] at h
  | cons a rest ih =>
    obtain ⟨q, v⟩ := a
    by_cases hpq : p = q
    · subst hpq
      simp only [ladderFind, if_pos rfl, if_true, Option.some.injEq] at h
      subst h
      simp [ladderKeys, ladderVol_cons]
    · simp only [ladderFind, if_neg hpq] at h
      obtain ⟨hm, hv⟩ := ih h
      constructor
      · simp only [ladderKeys, List.map_cons, List.mem_cons]
        exact Or.inr hm
      · rw [ladderVol_cons, if_neg hpq]
        exact hv

lemma ladderFind_eq_none_iff {l : Ladder} {p : ℚ} :
    ladderFind l p = none ↔ p ∉ ladderKeys l := by
  induction l with
  | nil => simp [ladderFind, ladderKeys]
  | cons a rest ih =>
    obtain ⟨q, v⟩ := a
    by_cases hpq : p = q <;>
      simp [ladderFind, ladderKeys, hpq] at ih ⊢ <;> tauto

lemma ladderSum_cons (q : ℚ) (w : ℕ) (rest : Ladder) :
    ladderSum ((q, w) :: rest) = w + ladderSum rest := by
  simp [ladderSum]

lemma ladderVol_le_ladderSum (l : Ladder) (p : ℚ) : ladderVol l p ≤ ladderSum l := by
  induction l with
  | nil => simp [ladderVol_nil]
  | cons a rest ih =>
    obtain ⟨q, w⟩ := a
    rw [ladderVol_cons, ladderSum_cons]
    by_cases h : p = q
    · simp [h]
    · simp only [if_neg h]
      omega

lemma ladderKeys_ladderAdd_subset (cmp : ℚ → ℚ → Bool) (l : Ladder) (p : ℚ) (v : ℕ) :
    ∀ x ∈ ladderKeys (ladderAdd cmp l p v), x ∈ ladderKeys l ∨ x = p := by
  induction l with
  | nil => simp [ladderAdd, ladderKeys]
  | cons a rest ih =>
    obtain ⟨q, w⟩ := a
    intro x hx
    by_cases hpq : p = q
    · rw [ladderAdd, if_pos hpq] at hx
      simp only [ladderKeys, List.map_cons, List.mem_cons] at hx ⊢
      tauto
    · rw [ladderAdd, if_neg hpq] at hx
      by_cases hc : cmp p q = true
      · rw [if_pos hc] at hx
        simp only [ladderKeys, List.map_cons, List.mem_cons] at hx ⊢
        tauto
      · rw [if_neg hc] at hx
        simp only [ladderKeys, List.map_cons, List.mem_cons] at hx ⊢
        rcases hx with h | h
        · tauto
        · rcases ih x h with h' | h' <;> tauto

lemma ladderSorted_ladderAdd {cmp : ℚ → ℚ → Bool}
    (htr : ∀ a b c, cmp a b = true → cmp b c = true → cmp a c = true)
    (hto : ∀ a b, a ≠ b → cmp a b = true ∨ cmp b a = true)
    {l : Ladder} (hs : LadderSorted cmp l) (p : ℚ) (v : ℕ) :
    LadderSorted cmp (ladderAdd cmp l p v) := by
  induction l with
  | nil => simp [ladderAdd, LadderSorted]
  | cons a rest ih =>
    obtain ⟨q, w⟩ := a
    rw [LadderSorted, List.pairwise_cons] at hs
    obtain ⟨hq, hrest⟩ := hs
    by_cases hpq : p = q
    · rw [ladderAdd, if_pos hpq, LadderSorted, List.pairwise_cons]
      exact ⟨hq, hrest⟩
    · rw [ladderAdd, if_neg hpq]
      by_cases hc : cmp p q = true
      · rw [if_pos hc, LadderSorted, List.pairwise_cons, List.pairwise_cons]
        refine ⟨?_, hq, hrest⟩
        intro b hb
        simp only [List.mem_cons] at hb
        rcases hb with rfl | hb
        · exact hc
        · exact htr p q b.1 hc (hq b hb)
      · rw [if_neg hc, LadderSorted, List.pairwise_cons]
        constructor
        · intro b hb
          have hb' := ladderKeys_ladderAdd_subset cmp rest p v b.1
            (by simpa [ladderKeys] using List.mem_map_of_mem Prod.fst hb)
          rcases hb' with h | h
          · simp only [ladderKeys, List.mem_map] at h
            obtain ⟨e, he, heq⟩ := h
            have := hq e he
            rw [heq] at this
            exact this
          · rw [h]
            rcases hto p q hpq with h' | h'
            · exact absurd h' hc
            · exact h'
        · exact ih hrest

lemma ladderSorted_nodup {cmp : ℚ → ℚ → Bool}
    (hirr : ∀ a, cmp a a = false) {l : Ladder} (hs : LadderSorted cmp l) :
    (ladderKeys l).Nodup := by
  rw [ladderKeys, List.Nodup, List.pairwise_map]
  refine hs.imp ?_
  intro a b hab heq
  rw [heq, hirr] at hab
  exact Bool.false_ne_true hab

lemma ladderVol_ladderAdd {cmp : ℚ → ℚ → Bool}
    (hasym : ∀ a b, cmp a b = true → cmp b a = true → False)
    {l : Ladder} (hs : LadderSorted cmp l) (p : ℚ) (v : ℕ) (q : ℚ) :
    ladderVol (ladderAdd cmp l p v) q = ladderVol l q + (if q = p then v else 0) := by
  induction l with
  | nil =>
    by_cases h : q = p <;>
      simp [ladderAdd, ladderVol_cons, ladderVol_nil, h]
  | cons a rest ih =>
    obtain ⟨b, w⟩ := a
    rw [LadderSorted, List.pairwise_cons] at hs
    obtain ⟨hb, hrest⟩ := hs
    by_cases hpb : p = b
    · rw [ladderAdd, if_pos hpb]
      subst hpb
      simp only [ladderVol_cons]
      by_cases hq : q = p <;> simp [hq] <;> omega
    · rw [ladderAdd, if_neg hpb]
      by_cases hc : cmp p b = true
      · rw [if_pos hc]
        simp only [ladderVol_cons]
        by_cases hqp : q = p
        · have hqb : ¬ q = b := by rw [hqp]; exact hpb
          have hnm : q ∉ ladderKeys rest := by
            intro hmem
            simp only [ladderKeys, List.mem_map] at hmem
            obtain ⟨e, he, heq⟩ := hmem
            have h1 := hb e he
            rw [heq] at h1
            exact hasym p b hc (hqp ▸ h1)
          subst hqp
          simp [hpb, ladderVol_eq_zero_of_not_mem hnm]
        · simp [hqp]
      · rw [if_neg hc]
        simp only [ladderVol_cons]
        by_cases hqb : q = b
        · have hqp : ¬ q = p := by rw [hqb]; exact fun h => hpb h.symm
          subst hqb
          simp [hqp]
        · simp only [if_neg hqb]
          exact ih hrest

lemma ladderSum_ladderAdd (cmp : ℚ → ℚ → Bool) (l : Ladder) (p : ℚ) (v : ℕ) :
    ladderSum (ladderAdd cmp l p v) = ladderSum l + v := by
  induction l with
  | nil => simp [ladderAdd, ladderSum]
  | cons a rest ih =>
    obtain ⟨q, w⟩ := a
    by_cases hpq : p = q
    · rw [ladderAdd, if_pos hpq]
      simp only [ladderSum_cons]
      omega
    · rw [ladderAdd, if_neg hpq]
      by_cases hc : cmp p q = true
      · rw [if_pos hc]
        simp only [ladderSum_cons]
        omega
      · rw [if_neg hc]
        simp only [ladderSum_cons, ih]
        omega

lemma ladderVol_ladderErase {l : Ladder} (hn : (ladderKeys l).Nodup) (p q : ℚ) :
    ladderVol (ladderErase l p) q = if q = p then 0 else ladderVol l q := by
  induction l with
  | nil => by_cases h : q = p <;> simp [ladderErase, ladderVol_nil, h]
  | cons a rest ih =>
    obtain ⟨b, w⟩ := a
    simp only [ladderKeys, List.map_cons, List.nodup_cons] at hn
    obtain ⟨hb, hrest⟩ := hn
    by_cases hpb : p = b
    · rw [ladderErase, if_pos hpb]
      by_cases hq : q = p
      · subst hq hpb
        rw [if_pos rfl]
        exact ladderVol_eq_zero_of_not_mem (by simpa [ladderKeys] using hb)
      · rw [if_neg hq, ladderVol_cons, if_neg (hpb ▸ hq)]
    · rw [ladderErase, if_neg hpb]
      simp only [ladderVol_cons]
      by_cases hqb : q = b
      · have h1 : ¬ q = p := fun h => hpb (hqb ▸ h).symm
        have h2 : ¬ b = p := fun h => hpb h.symm
        simp [hqb, h1, h2]
      · simp only [if_neg hqb]
        exact ih hrest

lemma ladderSum_ladderErase {l : Ladder} (hn : (ladderKeys l).Nodup) (p : ℚ) :
    ladderSum (ladderErase l p) = ladderSum l - ladderVol l p := by
  induction l with
  | nil => simp [ladderErase, ladderSum, ladderVol_nil]
  | cons a rest ih =>
    obtain ⟨b, w⟩ := a
    simp only [ladderKeys, List.map_cons, List.nodup_cons] at hn
    obtain ⟨hb, hrest⟩ := hn
    by_cases hpb : p = b
    · rw [ladderErase, if_pos hpb, ladderVol_cons, if_pos hpb, ladderSum_cons]
      omega
    · rw [ladderErase, if_neg hpb]
      rw [ladderSum_cons, ladderSum_cons, ladderVol_cons, if_neg hpb, ih hrest]
      have := ladderVol_le_ladderSum rest p
      omega

lemma ladderKeys_ladderErase_sublist (l : Ladder) (p : ℚ) :
    (ladderKeys (ladderErase l p)).Sublist (ladderKeys l) := by
  induction l with
  | nil => simp [ladderErase, ladderKeys]
  | cons a rest ih =>
    obtain ⟨b, w⟩ := a
    by_cases hpb : p = b
    · rw [ladderErase, if_pos hpb]
      exact (List.sublist_cons_self _ _)
    · rw [ladderErase, if_neg hpb]
      simpa [ladderKeys] using ih.cons₂ b

lemma ladderErase_sublist (l : Ladder) (p : ℚ) :
    (ladderErase l p).Sublist l := by
  induction l with
  | nil => simp [ladderErase]
  | cons a rest ih =>
    obtain ⟨b, w⟩ := a
    by_cases hpb : p = b
    · rw [ladderErase, if_pos hpb]
      exact (List.sublist_cons_self _ _)
    · rw [ladderErase, if_neg hpb]
      exact ih.cons₂ (b, w)

lemma ladderVol_ladderSet {l : Ladder} {p : ℚ} {w : ℕ}
    (hw : ladderFind l p = some w) (v : ℕ) (q : ℚ) :
    ladderVol (ladderSet l p v) q = if q = p then v else ladderVol l q := by
  induction l with
  | nil => simp [ladderFind] at hw
  | cons a rest ih =>
    obtain ⟨b, u⟩ := a
    by_cases hpb : p = b
    · rw [ladderSet, if_pos hpb]
      simp only [ladderVol_cons]
      by_cases hq : q = p
      · simp [hq, hpb]
      · have : ¬ q = b := fun h => hq (h.trans hpb.symm)
        simp [hq, this]
    · rw [ladderSet, if_neg hpb]
      rw [ladderFind, if_neg hpb] at hw
      simp only [ladderVol_cons]
      by_cases hqb : q = b
      · have h1 : ¬ q = p := fun h => hpb (hqb ▸ h).symm
        have h2 : ¬ b = p := fun h => hpb h.symm
        simp [hqb, h1, h2]
      · simp only [if_neg hqb]
        exact ih hw

lemma ladderSum_ladderSet {l : Ladder} (hn : (ladderKeys l).Nodup) {p : ℚ} {w : ℕ}
    (hw : ladderFind l p = some w) (v : ℕ) :
    ladderSum (ladderSet l p v) = ladderSum l - w + v := by
  induction l with
  | nil => simp [ladderFind] at hw
  | cons a rest ih =>
    obtain ⟨b, u⟩ := a
    simp only [ladderKeys, List.map_cons, List.nodup_cons] at hn
    obtain ⟨hb, hrest⟩ := hn
    by_cases hpb : p = b
    · subst hpb
      simp only [ladderFind, if_pos rfl, if_true, Option.some.injEq] at hw
      subst hw
      rw [ladderSet, if_pos rfl]
      simp only [ladderSum_cons]
      omega
    · rw [ladderSet, if_neg hpb]
      rw [ladderFind, if_neg hpb] at hw
      simp only [ladderSum_cons, ih hrest hw]
      have hle : w ≤ ladderSum rest := by
        have := (ladderFind_mem_vol hw).2
        have h2 := ladderVol_le_ladderSum rest p
        omega
      omega

lemma ladderKeys_ladderSet (l : Ladder) (p : ℚ) (v : ℕ) :
    ladderKeys (ladderSet l p v) = ladderKeys l := by
  induction l with
  | nil => simp [ladderSet]
  | cons a rest ih =>
    obtain ⟨b, u⟩ := a
    by_cases hpb : p = b <;>
      simp [ladderSet, hpb, ladderKeys] at ih ⊢ <;> simpa [ladderKeys] using ih

/-- Level volume after `remove_volume`: exactly `v` is removed at `p`
(truncated at the available volume), other levels untouched. -/
lemma remove_volume_vol {l : Ladder} (hn : (ladderKeys l).Nodup)
    (total : ℕ) (p : ℚ) (v : ℕ) (q : ℚ) :
    ladderVol (remove_volume l total p v).1 q =
      if q = p then ladderVol l p - v else ladderVol l q := by
  rw [remove_volume]
  cases hf : ladderFind l p with
  | none =>
    have h0 : ladderVol l p = 0 := by
      rw [ladderVol, hf]; rfl
    by_cases hq : q = p
    · simp [hq, h0]
    · simp [hq]
  | some w =>
    have hv : ladderVol l p = w := (ladderFind_mem_vol hf).2
    by_cases hle : w ≤ v
    · simp only [if_pos hle]
      rw [ladderVol_ladderErase hn]
      by_cases hq : q = p <;> simp [hq, hv] <;> omega
    · simp only [if_neg hle]
      rw [ladderVol_ladderSet hf]
      by_cases hq : q = p <;> simp [hq, hv]

/-- The running total after `remove_volume` drops by the amount actually
removed from the ladder. -/
lemma remove_volume_total {l : Ladder} (total : ℕ) (p : ℚ) (v : ℕ) :
    (remove_volume l total p v).2 = total - min (ladderVol l p) v := by
  rw [remove_volume]
  cases hf : ladderFind l p with
  | none =>
    have h0 : ladderVol l p = 0 := by rw [ladderVol, hf]; rfl
    simp [h0]
  | some w =>
    have hv : ladderVol l p = w := (ladderFind_mem_vol hf).2
    by_cases hle : w ≤ v
    · simp only [if_pos hle]
      rw [hv, min_eq_left hle]
    · simp only [if_neg hle]
      rw [hv, min_eq_right (by omega)]

lemma remove_volume_sum {l : Ladder} (hn : (ladderKeys l).Nodup)
    (total : ℕ) (p : ℚ) (v : ℕ) :
    ladderSum (remove_volume l total p v).1 =
      ladderSum l - min (ladderVol l p) v := by
  rw [remove_volume]
  cases hf : ladderFind l p with
  | none =>
    have h0 : ladderVol l p = 0 := by rw [ladderVol, hf]; rfl
    simp [h0]
  | some w =>
    have hv : ladderVol l p = w := (ladderFind_mem_vol hf).2
    by_cases hle : w ≤ v
    · simp only [if_pos hle]
      rw [ladderSum_ladderErase hn, hv, min_eq_left hle]
    · simp only [if_neg hle]
      rw [ladderSum_ladderSet hn hf, hv, min_eq_right (by omega)]
      have hws : w ≤ ladderSum l := hv ▸ ladderVol_le_ladderSum l p
      omega

lemma ladderSorted_ladderSet {cmp : ℚ → ℚ → Bool} {l : Ladder}
    (hs : LadderSorted cmp l) (p : ℚ) (v : ℕ) :
    LadderSorted cmp (ladderSet l p v) := by
  induction l with
  | nil => simpa [ladderSet] using hs
  | cons a rest ih =>
    obtain ⟨b, u⟩ := a
    rw [LadderSorted, List.pairwise_cons] at hs
    obtain ⟨hb, hrest⟩ := hs
    by_cases hpb : p = b
    · rw [ladderSet, if_pos hpb, LadderSorted, List.pairwise_cons]
      exact ⟨hb, hrest⟩
    · rw [ladderSet, if_neg hpb, LadderSorted, List.pairwise_cons]
      constructor
      · intro a' ha'
        have hk : a'.1 ∈ ladderKeys rest := by
          have hkeq := ladderKeys_ladderSet rest p v
          have hmem : a'.1 ∈ ladderKeys (ladderSet rest p v) :=
            List.mem_map_of_mem Prod.fst ha'
          rwa [hkeq] at hmem
        simp only [ladderKeys, List.mem_map] at hk
        obtain ⟨e, he, heq⟩ := hk
        have := hb e he
        rwa [heq] at this
      · exact ih hrest

lemma remove_volume_sorted {cmp : ℚ → ℚ → Bool} {l : Ladder}
    (hs : LadderSorted cmp l) (total : ℕ) (p : ℚ) (v : ℕ) :
    LadderSorted cmp (remove_volume l total p v).1 := by
  rw [remove_volume]
  cases hf : ladderFind l p with
  | none => exact hs
  | some w =>
    by_cases hle : w ≤ v
    · simp only [if_pos hle]
      exact hs.sublist (ladderErase_sublist l p)
    · simp only [if_neg hle]
      exact ladderSorted_ladderSet hs p (w - v)

lemma ladderSubAt_vol {cmp : ℚ → ℚ → Bool} {l : Ladder} {p : ℚ} {w : ℕ}
    (hw : ladderFind l p = some w) (v : ℕ) (q : ℚ) :
    ladderVol (ladderSubAt cmp l p v) q =
      if q = p then w - v else ladderVol l q := by
  simp only [ladderSubAt, hw]
  exact ladderVol_ladderSet hw (w - v) q

lemma ladderSubAt_sum {cmp : ℚ → ℚ → Bool} {l : Ladder}
    (hn : (ladderKeys l).Nodup) {p : ℚ} {w : ℕ}
    (hw : ladderFind l p = some w) (v : ℕ) :
    ladderSum (ladderSubAt cmp l p v) = ladderSum l - w + (w - v) := by
  simp only [ladderSubAt, hw]
  exact ladderSum_ladderSet hn hw (w - v)

lemma ladderSubAt_sorted {cmp : ℚ → ℚ → Bool} {l : Ladder}
    (hs : LadderSorted cmp l) {p : ℚ} {w : ℕ}
    (hw : ladderFind l p = some w) (v : ℕ) :
    LadderSorted cmp (ladderSubAt cmp l p v) := by
  simp only [ladderSubAt, hw]
  exact ladderSorted_ladderSet hs p (w - v)

/-! ### Active-order table lemmas -/

def aoKeys (ao : ActiveOrders) : List ℕ := ao.map Prod.fst

/-- Contribution of one order to side `sd` at price `p`. -/
def contrib (o : Order) (sd : Side) (p : ℚ) : ℕ :=
  if o.side = sd ∧ p = o.price then o.volume else 0

/-- Contribution of one order to side `sd` (any price). -/
def contribSide (o : Order) (sd : Side) : ℕ :=
  if o.side = sd then o.volume else 0

lemma ordVolAt_cons (i : ℕ) (o : Order) (rest : ActiveOrders) (sd : Side) (p : ℚ) :
    ordVolAt ((i, o) :: rest) sd p = contrib o sd p + ordVolAt rest sd p := rfl

lemma sideVol_cons (i : ℕ) (o : Order) (rest : ActiveOrders) (sd : Side) :
    sideVol ((i, o) :: rest) sd = contribSide o sd + sideVol rest sd := rfl

lemma aoFind_none_iff {ao : ActiveOrders} {id : ℕ} :
    aoFind ao id = none ↔ id ∉ aoKeys ao := by
  induction ao with
  | nil => simp [aoFind, aoKeys]
  | cons a rest ih =>
    obtain ⟨i, o⟩ := a
    by_cases h : id = i <;> simp [aoFind, aoKeys, h] at ih ⊢ <;> tauto

lemma ordVolAt_aoSet_fresh {ao : ActiveOrders} {id : ℕ}
    (h : aoFind ao id = none) (o : Order) (sd : Side) (p : ℚ) :
    ordVolAt (aoSet ao id o) sd p = ordVolAt ao sd p + contrib o sd p := by
  induction ao with
  | nil => simp [aoSet, ordVolAt_cons, ordVolAt, contrib]
  | cons a rest ih =>
    obtain ⟨i, e⟩ := a
    by_cases hid : id = i
    · rw [aoFind, if_pos hid] at h
      exact absurd h (by simp)
    · rw [aoFind, if_neg hid] at h
      rw [aoSet, if_neg hid, ordVolAt_cons, ordVolAt_cons, ih h]
      omega

lemma sideVol_aoSet_fresh {ao : ActiveOrders} {id : ℕ}
    (h : aoFind ao id = none) (o : Order) (sd : Side) :
    sideVol (aoSet ao id o) sd = sideVol ao sd + contribSide o sd := by
  induction ao with
  | nil => simp [aoSet, sideVol_cons, sideVol, contribSide]
  | cons a rest ih =>
    obtain ⟨i, e⟩ := a
    by_cases hid : id = i
    · rw [aoFind, if_pos hid] at h
      exact absurd h (by simp)
    · rw [aoFind, if_neg hid] at h
      rw [aoSet, if_neg hid, sideVol_cons, sideVol_cons, ih h]
      omega

lemma ordVolAt_aoSet_found {ao : ActiveOrders} {id : ℕ} {old : Order}
    (h : aoFind ao id = some old) (o : Order) (sd : Side) (p : ℚ) :
    ordVolAt (aoSet ao id o) sd p + contrib old sd p =
      ordVolAt ao sd p + contrib o sd p := by
  induction ao with
  | nil => simp [aoFind] at h
  | cons a rest ih =>
    obtain ⟨i, e⟩ := a
    by_cases hid : id = i
    · rw [aoFind, if_pos hid] at h
      simp only [Option.some.injEq] at h
      subst h
      rw [aoSet, if_pos hid, ordVolAt_cons, ordVolAt_cons]
      omega
    · rw [aoFind, if_neg hid] at h
      rw [aoSet, if_neg hid, ordVolAt_cons, ordVolAt_cons]
      have := ih h
      omega

lemma sideVol_aoSet_found {ao : ActiveOrders} {id : ℕ} {old : Order}
    (h : aoFind ao id = some old) (o : Order) (sd : Side) :
    sideVol (aoSet ao id o) sd + contribSide old sd =
      sideVol ao sd + contribSide o sd := by
  induction ao with
  | nil => simp [aoFind] at h
  | cons a rest ih =>
    obtain ⟨i, e⟩ := a
    by_cases hid : id = i
    · rw [aoFind, if_pos hid] at h
      simp only [Option.some.injEq] at h
      subst h
      rw [aoSet, if_pos hid, sideVol_cons, sideVol_cons]
      omega
    · rw [aoFind, if_neg hid] at h
      rw [aoSet, if_neg hid, sideVol_cons, sideVol_cons]
      have := ih h
      omega

lemma ordVolAt_aoErase {ao : ActiveOrders} {id : ℕ} {old : Order}
    (h : aoFind ao id = some old) (sd : Side) (p : ℚ) :
    ordVolAt (aoErase ao id) sd p + contrib old sd p = ordVolAt ao sd p := by
  induction ao with
  | nil => simp [aoFind] at h
  | cons a rest ih =>
    obtain ⟨i, e⟩ := a
    by_cases hid : id = i
    · rw [aoFind, if_pos hid] at h
      simp only [Option.some.injEq] at h
      subst h
      rw [aoErase, if_pos hid, ordVolAt_cons]
      omega
    · rw [aoFind, if_neg hid] at h
      rw [aoErase, if_neg hid, ordVolAt_cons, ordVolAt_cons]
      have := ih h
      omega

lemma sideVol_aoErase {ao : ActiveOrders} {id : ℕ} {old : Order}
    (h : aoFind ao id = some old) (sd : Side) :
    sideVol (aoErase ao id) sd + contribSide old sd = sideVol ao sd := by
  induction ao with
  | nil => simp [aoFind] at h
  | cons a rest ih =>
    obtain ⟨i, e⟩ := a
    by_cases hid : id = i
    · rw [aoFind, if_pos hid] at h
      simp only [Option.some.injEq] at h
      subst h
      rw [aoErase, if_pos hid, sideVol_cons]
      omega
    · rw [aoFind, if_neg hid] at h
      rw [aoErase, if_neg hid, sideVol_cons, sideVol_cons]
      have := ih h
      omega

lemma aoKeys_aoSet_fresh {ao : ActiveOrders} {id : ℕ}
    (h : aoFind ao id = none) (o : Order) :
    aoKeys (aoSet ao id o) = aoKeys ao ++ [id] := by
  induction ao with
  | nil => simp [aoSet, aoKeys]
  | cons a rest ih =>
    obtain ⟨i, e⟩ := a
    by_cases hid : id = i
    · rw [aoFind, if_pos hid] at h
      exact absurd h (by simp)
    · rw [aoFind, if_neg hid] at h
      rw [aoSet, if_neg hid]
      simp [aoKeys] at ih ⊢
      exact ih h

lemma aoKeys_aoSet_found {ao : ActiveOrders} {id : ℕ} {old : Order}
    (h : aoFind ao id = some old) (o : Order) :
    aoKeys (aoSet ao id o) = aoKeys ao := by
  induction ao with
  | nil => simp [aoFind] at h
  | cons a rest ih =>
    obtain ⟨i, e⟩ := a
    by_cases hid : id = i
    · rw [aoSet, if_pos hid]
      simp [aoKeys]
    · rw [aoFind, if_neg hid] at h
      rw [aoSet, if_neg hid]
      simp [aoKeys] at ih ⊢
      exact ih h

lemma aoKeys_aoErase_sublist (ao : ActiveOrders) (id : ℕ) :
    (aoKeys (aoErase ao id)).Sublist (aoKeys ao) := by
  induction ao with
  | nil => simp [aoErase, aoKeys]
  | cons a rest ih =>
    obtain ⟨i, e⟩ := a
    by_cases hid : id = i
    · rw [aoErase, if_pos hid]
      exact List.sublist_cons_self _ _
    · rw [aoErase, if_neg hid]
      simpa [aoKeys] using ih.cons₂ i

lemma aoNodup_aoSet_fresh {ao : ActiveOrders} {id : ℕ}
    (h : aoFind ao id = none) (hn : (aoKeys ao).Nodup) (o : Order) :
    (aoKeys (aoSet ao id o)).Nodup := by
  rw [aoKeys_aoSet_fresh h o]
  have hid : id ∉ aoKeys ao := aoFind_none_iff.mp h
  simp [List.nodup_append, hn, hid]

/-! ### The C1 invariant -/

lemma bidCmp_trans (a b c : ℚ) (h1 : bidCmp a b = true) (h2 : bidCmp b c = true) :
    bidCmp a c = true := by
  simp only [bidCmp, decide_eq_true_eq] at *
  exact lt_trans h2 h1

lemma bidCmp_total (a b : ℚ) (h : a ≠ b) : bidCmp a b = true ∨ bidCmp b a = true := by
  simp only [bidCmp, decide_eq_true_eq]
  rcases lt_or_gt_of_ne h with h' | h'
  · exact Or.inr h'
  · exact Or.inl h'

lemma bidCmp_irrefl (a : ℚ) : bidCmp a a = false := by
  simp [bidCmp]

lemma bidCmp_asym (a b : ℚ) (h1 : bidCmp a b = true) (h2 : bidCmp b a = true) : False := by
  simp only [bidCmp, decide_eq_true_eq] at *
  exact absurd h1 (not_lt_of_gt h2)

lemma askCmp_trans (a b c : ℚ) (h1 : askCmp a b = true) (h2 : askCmp b c = true) :
    askCmp a c = true := by
  simp only [askCmp, decide_eq_true_eq] at *
  exact lt_trans h1 h2

lemma askCmp_total (a b : ℚ) (h : a ≠ b) : askCmp a b = true ∨ askCmp b a = true := by
  simp only [askCmp, decide_eq_true_eq]
  rcases lt_or_gt_of_ne h with h' | h'
  · exact Or.inl h'
  · exact Or.inr h'

lemma askCmp_irrefl (a : ℚ) : askCmp a a = false := by
  simp [askCmp]

lemma askCmp_asym (a b : ℚ) (h1 : askCmp a b = true) (h2 : askCmp b a = true) : False := by
  simp only [askCmp, decide_eq_true_eq] at *
  exact absurd h1 (not_lt_of_gt h2)

lemma update_stats_bids (b : OrderBook) : (update_stats b).bids = b.bids := rfl

lemma update_stats_asks (b : OrderBook) : (update_stats b).asks = b.asks := rfl

lemma update_stats_active (b : OrderBook) :
    (update_stats b).active_orders = b.active_orders := rfl

lemma update_stats_tbv (b : OrderBook) :
    (update_stats b).total_bid_volume = b.total_bid_volume := rfl

lemma update_stats_tav (b : OrderBook) :
    (update_stats b).total_ask_volume = b.total_ask_volume := rfl

lemma contrib_le_ordVolAt {ao : ActiveOrders} {id : ℕ} {o : Order}
    (h : aoFind ao id = some o) (sd : Side) (p : ℚ) :
    contrib o sd p ≤ ordVolAt ao sd p := by
  induction ao with
  | nil => simp [aoFind] at h
  | cons a rest ih =>
    obtain ⟨i, e⟩ := a
    by_cases hid : id = i
    · rw [aoFind, if_pos hid] at h
      simp only [Option.some.injEq] at h
      subst h
      rw [ordVolAt_cons]
      omega
    · rw [aoFind, if_neg hid] at h
      rw [ordVolAt_cons]
      have := ih h
      omega

lemma contribSide_le_sideVol {ao : ActiveOrders} {id : ℕ} {o : Order}
    (h : aoFind ao id = some o) (sd : Side) :
    contribSide o sd ≤ sideVol ao sd := by
  induction ao with
  | nil => simp [aoFind] at h
  | cons a rest ih =>
    obtain ⟨i, e⟩ := a
    by_cases hid : id = i
    · rw [aoFind, if_pos hid] at h
      simp only [Option.some.injEq] at h
      subst h
      rw [sideVol_cons]
      omega
    · rw [aoFind, if_neg hid] at h
      rw [sideVol_cons]
      have := ih h
      omega

lemma ladderFind_of_vol_pos {l : Ladder} {p : ℚ} (h : 0 < ladderVol l p) :
    ladderFind l p = some (ladderVol l p) := by
  cases hf : ladderFind l p with
  | none =>
    rw [ladderVol, hf] at h
    simp at h
  | some w =>
    rw [(ladderFind_mem_vol hf).2]

/-- The book invariant behind claim C1: ladders are well-formed, every
price level carries exactly the resting volume at that price/side, and
the running totals agree simultaneously with a ladder scan and with the
resting orders. -/
structure BookInv (b : OrderBook) : Prop where
  bidSorted : LadderSorted bidCmp b.bids
  askSorted : LadderSorted askCmp b.asks
  aoNodup : (aoKeys b.active_orders).Nodup
  bidAt : ∀ p, ladderVol b.bids p = ordVolAt b.active_orders Side.B p
  askAt : ∀ p, ladderVol b.asks p = ordVolAt b.active_orders Side.S p
  bidTL : b.total_bid_volume = ladderSum b.bids
  askTL : b.total_ask_volume = ladderSum b.asks
  bidTO : b.total_bid_volume = sideVol b.active_orders Side.B
  askTO : b.total_ask_volume = sideVol b.active_orders Side.S

/-- The property claim C1 states: per-side ladder sums equal resting-order
sums, and the running totals agree with a full scan of each ladder. -/
def volumeSumsAgree (b : OrderBook) : Prop :=
  ladderSum b.bids = sideVol b.active_orders Side.B ∧
  ladderSum b.asks = sideVol b.active_orders Side.S ∧
  b.total_bid_volume = ladderSum b.bids ∧
  b.total_ask_volume = ladderSum b.asks

lemma BookInv.sums {b : OrderBook} (h : BookInv b) : volumeSumsAgree b :=
  ⟨h.bidTL ▸ h.bidTO, h.askTL ▸ h.askTO, h.bidTL, h.askTL⟩

lemma add_order_inv {b : OrderBook} (inv : BookInv b) {id : ℕ}
    (hfresh : aoFind b.active_orders id = none)
    (p : ℚ) (v : ℕ) (sd : Side) : BookInv (add_order b id p v sd) := by
  cases sd with
  | B =>
    refine ⟨?_, ?_, ?_, ?_, ?_, ?_, ?_, ?_, ?_⟩
    · show LadderSorted bidCmp (ladderAdd bidCmp b.bids p v)
      exact ladderSorted_ladderAdd bidCmp_trans bidCmp_total inv.bidSorted p v
    · show LadderSorted askCmp b.asks
      exact inv.askSorted
    · show (aoKeys (aoSet b.active_orders id ⟨id, p, v, Side.B⟩)).Nodup
      exact aoNodup_aoSet_fresh hfresh inv.aoNodup _
    · intro q
      show ladderVol (ladderAdd bidCmp b.bids p v) q =
        ordVolAt (aoSet b.active_orders id ⟨id, p, v, Side.B⟩) Side.B q
      rw [ladderVol_ladderAdd bidCmp_asym inv.bidSorted p v q,
        ordVolAt_aoSet_fresh hfresh _ Side.B q, inv.bidAt q]
      simp only [contrib]
      by_cases hq : q = p
      · simp [hq]
      · have hpq : ¬ p = q := fun h => hq h.symm
        simp [hq, hpq]
    · intro q
      show ladderVol b.asks q =
        ordVolAt (aoSet b.active_orders id ⟨id, p, v, Side.B⟩) Side.S q
      rw [ordVolAt_aoSet_fresh hfresh _ Side.S q, inv.askAt q]
      simp [contrib]
    · show b.total_bid_volume + v = ladderSum (ladderAdd bidCmp b.bids p v)
      rw [ladderSum_ladderAdd, inv.bidTL]
    · show b.total_ask_volume = ladderSum b.asks
      exact inv.askTL
    · show b.total_bid_volume + v =
        sideVol (aoSet b.active_orders id ⟨id, p, v, Side.B⟩) Side.B
      rw [sideVol_aoSet_fresh hfresh _ Side.B, inv.bidTO]
      simp [contribSide]
    · show b.total_ask_volume =
        sideVol (aoSet b.active_orders id ⟨id, p, v, Side.B⟩) Side.S
      rw [sideVol_aoSet_fresh hfresh _ Side.S, inv.askTO]
      simp [contribSide]
  | S =>
    refine ⟨?_, ?_, ?_, ?_, ?_, ?_, ?_, ?_, ?_⟩
    · show LadderSorted bidCmp b.bids
      exact inv.bidSorted
    · show LadderSorted askCmp (ladderAdd askCmp b.asks p v)
      exact ladderSorted_ladderAdd askCmp_trans askCmp_total inv.askSorted p v
    · show (aoKeys (aoSet b.active_orders id ⟨id, p, v, Side.S⟩)).Nodup
      exact aoNodup_aoSet_fresh hfresh inv.aoNodup _
    · intro q
      show ladderVol b.bids q =
        ordVolAt (aoSet b.active_orders id ⟨id, p, v, Side.S⟩) Side.B q
      rw [ordVolAt_aoSet_fresh hfresh _ Side.B q, inv.bidAt q]
      simp [contrib]
    · intro q
      show ladderVol (ladderAdd askCmp b.asks p v) q =
        ordVolAt (aoSet b.active_orders id ⟨id, p, v, Side.S⟩) Side.S q
      rw [ladderVol_ladderAdd askCmp_asym inv.askSorted p v q,
        ordVolAt_aoSet_fresh hfresh _ Side.S q, inv.askAt q]
      simp only [contrib]
      by_cases hq : q = p
      · simp [hq]
      · have hpq : ¬ p = q := fun h => hq h.symm
        simp [hq, hpq]
    · show b.total_bid_volume = ladderSum b.bids
      exact inv.bidTL
    · show b.total_ask_volume + v = ladderSum (ladderAdd askCmp b.asks p v)
      rw [ladderSum_ladderAdd, inv.askTL]
    · show b.total_bid_volume =
        sideVol (aoSet b.active_orders id ⟨id, p, v, Side.S⟩) Side.B
      rw [sideVol_aoSet_fresh hfresh _ Side.B, inv.bidTO]
      simp [contribSide]
    · show b.total_ask_volume + v =
        sideVol (aoSet b.active_orders id ⟨id, p, v, Side.S⟩) Side.S
      rw [sideVol_aoSet_fresh hfresh _ Side.S, inv.askTO]
      simp [contribSide]

lemma clear_inv (b : OrderBook) : BookInv (b.clear) := by
  refine ⟨?_, ?_, ?_, ?_, ?_, ?_, ?_, ?_, ?_⟩ <;>
    simp [OrderBook.clear, update_stats, LadderSorted, aoKeys, ladderVol_nil,
      ordVolAt, sideVol, ladderSum]

lemma restore_inv (b : OrderBook) {bids asks : Ladder} {active : ActiveOrders}
    (hbs : LadderSorted bidCmp bids) (has : LadderSorted askCmp asks)
    (hn : (aoKeys active).Nodup)
    (hbAt : ∀ p, ladderVol bids p = ordVolAt active Side.B p)
    (haAt : ∀ p, ladderVol asks p = ordVolAt active Side.S p)
    (hbS : ladderSum bids = sideVol active Side.B)
    (haS : ladderSum asks = sideVol active Side.S) :
    BookInv (restore_from_snapshot b bids asks active) := by
  refine ⟨?_, ?_, ?_, ?_, ?_, ?_, ?_, ?_, ?_⟩
  · exact hbs
  · exact has
  · exact hn
  · exact hbAt
  · exact haAt
  · show ladderSum bids = ladderSum bids
    rfl
  · show ladderSum asks = ladderSum asks
    rfl
  · exact hbS
  · exact haS

lemma modify_order_inv {b : OrderBook} (inv : BookInv b) (id : ℕ) (np : ℚ) (nv : ℕ) :
    BookInv (modify_order b id np nv) := by
  rw [modify_order]
  cases hf : aoFind b.active_orders id with
  | none => exact inv
  | some o =>
    have hnb := ladderSorted_nodup bidCmp_irrefl inv.bidSorted
    have hna := ladderSorted_nodup askCmp_irrefl inv.askSorted
    obtain ⟨oid, oprice, ovol, oside⟩ := o
    cases oside with
    | B =>
      have hole : ovol ≤ ladderVol b.bids oprice := by
        have h1 := contrib_le_ordVolAt hf Side.B oprice
        simp [contrib] at h1
        rw [inv.bidAt oprice]
        exact h1
      refine ⟨?_, ?_, ?_, ?_, ?_, ?_, ?_, ?_, ?_⟩
      · show LadderSorted bidCmp (ladderAdd bidCmp
          (remove_volume b.bids b.total_bid_volume oprice ovol).1 np nv)
        exact ladderSorted_ladderAdd bidCmp_trans bidCmp_total
          (remove_volume_sorted inv.bidSorted _ _ _) np nv
      · show LadderSorted askCmp b.asks
        exact inv.askSorted
      · show (aoKeys (aoSet b.active_orders id ⟨oid, np, nv, Side.B⟩)).Nodup
        rw [aoKeys_aoSet_found hf]
        exact inv.aoNodup
      · intro q
        show ladderVol (ladderAdd bidCmp
            (remove_volume b.bids b.total_bid_volume oprice ovol).1 np nv) q =
          ordVolAt (aoSet b.active_orders id ⟨oid, np, nv, Side.B⟩) Side.B q
        rw [ladderVol_ladderAdd bidCmp_asym
          (remove_volume_sorted inv.bidSorted _ _ _) np nv q,
          remove_volume_vol hnb b.total_bid_volume oprice ovol q]
        have hfound := ordVolAt_aoSet_found hf ⟨oid, np, nv, Side.B⟩ Side.B q
        have hcleq := contrib_le_ordVolAt hf Side.B q
        have hbq := inv.bidAt q
        have hbp := inv.bidAt oprice
        simp only [contrib, true_and] at hfound hcleq
        by_cases h1 : q = oprice
        · subst h1
          by_cases h2 : q = np <;> simp [h2] at hfound hcleq hbq hbp ⊢ <;> omega
        · by_cases h2 : q = np
          · subst h2
            simp [h1] at hfound hcleq hbq ⊢
            omega
          · simp [h1, h2] at hfound hcleq hbq ⊢
            omega
      · intro q
        show ladderVol b.asks q =
          ordVolAt (aoSet b.active_orders id ⟨oid, np, nv, Side.B⟩) Side.S q
        have hfound := ordVolAt_aoSet_found hf ⟨oid, np, nv, Side.B⟩ Side.S q
        simp [contrib] at hfound
        rw [inv.askAt q]
        omega
      · show (remove_volume b.bids b.total_bid_volume oprice ovol).2 + nv =
          ladderSum (ladderAdd bidCmp
            (remove_volume b.bids b.total_bid_volume oprice ovol).1 np nv)
        rw [ladderSum_ladderAdd, remove_volume_sum hnb, remove_volume_total]
        have h1 := ladderVol_le_ladderSum b.bids oprice
        have h2 := inv.bidTL
        omega
      · show b.total_ask_volume = ladderSum b.asks
        exact inv.askTL
      · show (remove_volume b.bids b.total_bid_volume oprice ovol).2 + nv =
          sideVol (aoSet b.active_orders id ⟨oid, np, nv, Side.B⟩) Side.B
        rw [remove_volume_total]
        have hfs := sideVol_aoSet_found hf ⟨oid, np, nv, Side.B⟩ Side.B
        have hcs := contribSide_le_sideVol hf Side.B
        simp [contribSide] at hfs hcs
        have h2 := inv.bidTO
        omega
      · show b.total_ask_volume =
          sideVol (aoSet b.active_orders id ⟨oid, np, nv, Side.B⟩) Side.S
        have hfs := sideVol_aoSet_found hf ⟨oid, np, nv, Side.B⟩ Side.S
        simp [contribSide] at hfs
        rw [inv.askTO]
        omega
    | S =>
      have hole : ovol ≤ ladderVol b.asks oprice := by
        have h1 := contrib_le_ordVolAt hf Side.S oprice
        simp [contrib] at h1
        rw [inv.askAt oprice]
        exact h1
      refine ⟨?_, ?_, ?_, ?_, ?_, ?_, ?_, ?_, ?_⟩
      · show LadderSorted bidCmp b.bids
        exact inv.bidSorted
      · show LadderSorted askCmp (ladderAdd askCmp
          (remove_volume b.asks b.total_ask_volume oprice ovol).1 np nv)
        exact ladderSorted_ladderAdd askCmp_trans askCmp_total
          (remove_volume_sorted inv.askSorted _ _ _) np nv
      · show (aoKeys (aoSet b.active_orders id ⟨oid, np, nv, Side.S⟩)).Nodup
        rw [aoKeys_aoSet_found hf]
        exact inv.aoNodup
      · intro q
        show ladderVol b.bids q =
          ordVolAt (aoSet b.active_orders id ⟨oid, np, nv, Side.S⟩) Side.B q
        have hfound := ordVolAt_aoSet_found hf ⟨oid, np, nv, Side.S⟩ Side.B q
        simp [contrib] at hfound
        rw [inv.bidAt q]
        omega
      · intro q
        show ladderVol (ladderAdd askCmp
            (remove_volume b.asks b.total_ask_volume oprice ovol).1 np nv) q =
          ordVolAt (aoSet b.active_orders id ⟨oid, np, nv, Side.S⟩) Side.S q
        rw [ladderVol_ladderAdd askCmp_asym
          (remove_volume_sorted inv.askSorted _ _ _) np nv q,
          remove_volume_vol hna b.total_ask_volume oprice ovol q]
        have hfound := ordVolAt_aoSet_found hf ⟨oid, np, nv, Side.S⟩ Side.S q
        have hcleq := contrib_le_ordVolAt hf Side.S q
        have hbq := inv.askAt q
        have hbp := inv.askAt oprice
        simp only [contrib, true_and] at hfound hcleq
        by_cases h1 : q = oprice
        · subst h1
          by_cases h2 : q = np <;> simp [h2] at hfound hcleq hbq hbp ⊢ <;> omega
        · by_cases h2 : q = np
          · subst h2
            simp [h1] at hfound hcleq hbq ⊢
            omega
          · simp [h1, h2] at hfound hcleq hbq ⊢
            omega
      · show b.total_bid_volume = ladderSum b.bids
        exact inv.bidTL
      · show (remove_volume b.asks b.total_ask_volume oprice ovol).2 + nv =
          ladderSum (ladderAdd askCmp
            (remove_volume b.asks b.total_ask_volume oprice ovol).1 np nv)
        rw [ladderSum_ladderAdd, remove_volume_sum hna, remove_volume_total]
        have h1 := ladderVol_le_ladderSum b.asks oprice
        have h2 := inv.askTL
        omega
      · show b.total_bid_volume =
          sideVol (aoSet b.active_orders id ⟨oid, np, nv, Side.S⟩) Side.B
        have hfs := sideVol_aoSet_found hf ⟨oid, np, nv, Side.S⟩ Side.B
        simp [contribSide] at hfs
        rw [inv.bidTO]
        omega
      · show (remove_volume b.asks b.total_ask_volume oprice ovol).2 + nv =
          sideVol (aoSet b.active_orders id ⟨oid, np, nv, Side.S⟩) Side.S
        rw [remove_volume_total]
        have hfs := sideVol_aoSet_found hf ⟨oid, np, nv, Side.S⟩ Side.S
        have hcs := contribSide_le_sideVol hf Side.S
        simp [contribSide] at hfs hcs
        have h2 := inv.askTO
        omega

lemma delete_order_inv {b : OrderBook} (inv : BookInv b) (id : ℕ) :
    BookInv (delete_order b id) := by
  rw [delete_order]
  cases hf : aoFind b.active_orders id with
  | none => exact inv
  | some o =>
    have hnb := ladderSorted_nodup bidCmp_irrefl inv.bidSorted
    have hna := ladderSorted_nodup askCmp_irrefl inv.askSorted
    obtain ⟨oid, oprice, ovol, oside⟩ := o
    cases oside with
    | B =>
      have hole : ovol ≤ ladderVol b.bids oprice := by
        have h1 := contrib_le_ordVolAt hf Side.B oprice
        simp [contrib] at h1
        rw [inv.bidAt oprice]
        exact h1
      refine ⟨?_, ?_, ?_, ?_, ?_, ?_, ?_, ?_, ?_⟩
      · show LadderSorted bidCmp (remove_volume b.bids b.total_bid_volume oprice ovol).1
        exact remove_volume_sorted inv.bidSorted _ _ _
      · show LadderSorted askCmp b.asks
        exact inv.askSorted
      · show (aoKeys (aoErase b.active_orders id)).Nodup
        exact inv.aoNodup.sublist (aoKeys_aoErase_sublist _ _)
      · intro q
        show ladderVol (remove_volume b.bids b.total_bid_volume oprice ovol).1 q =
          ordVolAt (aoErase b.active_orders id) Side.B q
        rw [remove_volume_vol hnb b.total_bid_volume oprice ovol q]
        have herase := ordVolAt_aoErase hf Side.B q
        have hbq := inv.bidAt q
        have hbp := inv.bidAt oprice
        simp only [contrib, true_and] at herase
        by_cases h1 : q = oprice
        · subst h1
          simp at herase ⊢
          omega
        · simp [h1] at herase ⊢
          omega
      · intro q
        show ladderVol b.asks q = ordVolAt (aoErase b.active_orders id) Side.S q
        have herase := ordVolAt_aoErase hf Side.S q
        simp [contrib] at herase
        rw [inv.askAt q]
        omega
      · show (remove_volume b.bids b.total_bid_volume oprice ovol).2 =
          ladderSum (remove_volume b.bids b.total_bid_volume oprice ovol).1
        rw [remove_volume_sum hnb, remove_volume_total]
        have h1 := ladderVol_le_ladderSum b.bids oprice
        have h2 := inv.bidTL
        omega
      · show b.total_ask_volume = ladderSum b.asks
        exact inv.askTL
      · show (remove_volume b.bids b.total_bid_volume oprice ovol).2 =
          sideVol (aoErase b.active_orders id) Side.B
        rw [remove_volume_total]
        have hfs := sideVol_aoErase hf Side.B
        simp [contribSide] at hfs
        have h2 := inv.bidTO
        omega
      · show b.total_ask_volume = sideVol (aoErase b.active_orders id) Side.S
        have hfs := sideVol_aoErase hf Side.S
        simp [contribSide] at hfs
        rw [inv.askTO]
        omega
    | S =>
      have hole : ovol ≤ ladderVol b.asks oprice := by
        have h1 := contrib_le_ordVolAt hf Side.S oprice
        simp [contrib] at h1
        rw [inv.askAt oprice]
        exact h1
      refine ⟨?_, ?_, ?_, ?_, ?_, ?_, ?_, ?_, ?_⟩
      · show LadderSorted bidCmp b.bids
        exact inv.bidSorted
      · show LadderSorted askCmp (remove_volume b.asks b.total_ask_volume oprice ovol).1
        exact remove_volume_sorted inv.askSorted _ _ _
      · show (aoKeys (aoErase b.active_orders id)).Nodup
        exact inv.aoNodup.sublist (aoKeys_aoErase_sublist _ _)
      · intro q
        show ladderVol b.bids q = ordVolAt (aoErase b.active_orders id) Side.B q
        have herase := ordVolAt_aoErase hf Side.B q
        simp [contrib] at herase
        rw [inv.bidAt q]
        omega
      · intro q
        show ladderVol (remove_volume b.asks b.total_ask_volume oprice ovol).1 q =
          ordVolAt (aoErase b.active_orders id) Side.S q
        rw [remove_volume_vol hna b.total_ask_volume oprice ovol q]
        have herase := ordVolAt_aoErase hf Side.S q
        have hbq := inv.askAt q
        have hbp := inv.askAt oprice
        simp only [contrib, true_and] at herase
        by_cases h1 : q = oprice
        · subst h1
          simp at herase ⊢
          omega
        · simp [h1] at herase ⊢
          omega
      · show b.total_bid_volume = ladderSum b.bids
        exact inv.bidTL
      · show (remove_volume b.asks b.total_ask_volume oprice ovol).2 =
          ladderSum (remove_volume b.asks b.total_ask_volume oprice ovol).1
        rw [remove_volume_sum hna, remove_volume_total]
        have h1 := ladderVol_le_ladderSum b.asks oprice
        have h2 := inv.askTL
        omega
      · show b.total_bid_volume = sideVol (aoErase b.active_orders id) Side.B
        have hfs := sideVol_aoErase hf Side.B
        simp [contribSide] at hfs
        rw [inv.bidTO]
        omega
      · show (remove_volume b.asks b.total_ask_volume oprice ovol).2 =
          sideVol (aoErase b.active_orders id) Side.S
        rw [remove_volume_total]
        have hfs := sideVol_aoErase hf Side.S
        simp [contribSide] at hfs
        have h2 := inv.askTO
        omega

lemma execute_order_inv {b : OrderBook} (inv : BookInv b) (id : ℕ) (qty : ℕ) (px : ℚ) :
    BookInv (execute_order b id qty px) := by
  rw [execute_order]
  cases hf : aoFind b.active_orders id with
  | none => exact inv
  | some o =>
    have hnb := ladderSorted_nodup bidCmp_irrefl inv.bidSorted
    have hna := ladderSorted_nodup askCmp_irrefl inv.askSorted
    obtain ⟨oid, oprice, ovol, oside⟩ := o
    by_cases hqty : qty < ovol
    · -- partial fill
      cases oside with
      | B =>
        have hole : ovol ≤ ladderVol b.bids oprice := by
          have h1 := contrib_le_ordVolAt hf Side.B oprice
          simp [contrib] at h1
          rw [inv.bidAt oprice]
          exact h1
        have hw : ladderFind b.bids oprice = some (ladderVol b.bids oprice) :=
          ladderFind_of_vol_pos (by omega)
        dsimp only
        rw [if_pos hqty]
        refine ⟨?_, ?_, ?_, ?_, ?_, ?_, ?_, ?_, ?_⟩
        · show LadderSorted bidCmp (ladderSubAt bidCmp b.bids oprice qty)
          exact ladderSubAt_sorted inv.bidSorted hw qty
        · show LadderSorted askCmp b.asks
          exact inv.askSorted
        · show (aoKeys (aoSet b.active_orders id ⟨oid, oprice, ovol - qty, Side.B⟩)).Nodup
          rw [aoKeys_aoSet_found hf]
          exact inv.aoNodup
        · intro q
          show ladderVol (ladderSubAt bidCmp b.bids oprice qty) q =
            ordVolAt (aoSet b.active_orders id ⟨oid, oprice, ovol - qty, Side.B⟩) Side.B q
          rw [ladderSubAt_vol hw qty q]
          have hfound := ordVolAt_aoSet_found hf ⟨oid, oprice, ovol - qty, Side.B⟩ Side.B q
          have hbq := inv.bidAt q
          have hbp := inv.bidAt oprice
          simp only [contrib, true_and] at hfound
          by_cases h1 : q = oprice
          · subst h1
            simp at hfound ⊢
            omega
          · simp [h1] at hfound ⊢
            omega
        · intro q
          show ladderVol b.asks q =
            ordVolAt (aoSet b.active_orders id ⟨oid, oprice, ovol - qty, Side.B⟩) Side.S q
          have hfound := ordVolAt_aoSet_found hf ⟨oid, oprice, ovol - qty, Side.B⟩ Side.S q
          simp [contrib] at hfound
          rw [inv.askAt q]
          omega
        · show b.total_bid_volume - qty = ladderSum (ladderSubAt bidCmp b.bids oprice qty)
          rw [ladderSubAt_sum hnb hw qty]
          have h1 := ladderVol_le_ladderSum b.bids oprice
          have h2 := inv.bidTL
          omega
        · show b.total_ask_volume = ladderSum b.asks
          exact inv.askTL
        · show b.total_bid_volume - qty =
            sideVol (aoSet b.active_orders id ⟨oid, oprice, ovol - qty, Side.B⟩) Side.B
          have hfs := sideVol_aoSet_found hf ⟨oid, oprice, ovol - qty, Side.B⟩ Side.B
          have hcs := contribSide_le_sideVol hf Side.B
          simp [contribSide] at hfs hcs
          have h2 := inv.bidTO
          omega
        · show b.total_ask_volume =
            sideVol (aoSet b.active_orders id ⟨oid, oprice, ovol - qty, Side.B⟩) Side.S
          have hfs := sideVol_aoSet_found hf ⟨oid, oprice, ovol - qty, Side.B⟩ Side.S
          simp [contribSide] at hfs
          rw [inv.askTO]
          omega
      | S =>
        have hole : ovol ≤ ladderVol b.asks oprice := by
          have h1 := contrib_le_ordVolAt hf Side.S oprice
          simp [contrib] at h1
          rw [inv.askAt oprice]
          exact h1
        have hw : ladderFind b.asks oprice = some (ladderVol b.asks oprice) :=
          ladderFind_of_vol_pos (by omega)
        dsimp only
        rw [if_pos hqty]
        refine ⟨?_, ?_, ?_, ?_, ?_, ?_, ?_, ?_, ?_⟩
        · show LadderSorted bidCmp b.bids
          exact inv.bidSorted
        · show LadderSorted askCmp (ladderSubAt askCmp b.asks oprice qty)
          exact ladderSubAt_sorted inv.askSorted hw qty
        · show (aoKeys (aoSet b.active_orders id ⟨oid, oprice, ovol - qty, Side.S⟩)).Nodup
          rw [aoKeys_aoSet_found hf]
          exact inv.aoNodup
        · intro q
          show ladderVol b.bids q =
            ordVolAt (aoSet b.active_orders id ⟨oid, oprice, ovol - qty, Side.S⟩) Side.B q
          have hfound := ordVolAt_aoSet_found hf ⟨oid, oprice, ovol - qty, Side.S⟩ Side.B q
          simp [contrib] at hfound
          rw [inv.bidAt q]
          omega
        · intro q
          show ladderVol (ladderSubAt askCmp b.asks oprice qty) q =
            ordVolAt (aoSet b.active_orders id ⟨oid, oprice, ovol - qty, Side.S⟩) Side.S q
          rw [ladderSubAt_vol hw qty q]
          have hfound := ordVolAt_aoSet_found hf ⟨oid, oprice, ovol - qty, Side.S⟩ Side.S q
          have hbq := inv.askAt q
          have hbp := inv.askAt oprice
          simp only [contrib, true_and] at hfound
          by_cases h1 : q = oprice
          · subst h1
            simp at hfound ⊢
            omega
          · simp [h1] at hfound ⊢
            omega
        · show b.total_bid_volume = ladderSum b.bids
          exact inv.bidTL
        · show b.total_ask_volume - qty = ladderSum (ladderSubAt askCmp b.asks oprice qty)
          rw [ladderSubAt_sum hna hw qty]
          have h1 := ladderVol_le_ladderSum b.asks oprice
          have h2 := inv.askTL
          omega
        · show b.total_bid_volume =
            sideVol (aoSet b.active_orders id ⟨oid, oprice, ovol - qty, Side.S⟩) Side.B
          have hfs := sideVol_aoSet_found hf ⟨oid, oprice, ovol - qty, Side.S⟩ Side.B
          simp [contribSide] at hfs
          rw [inv.bidTO]
          omega
        · show b.total_ask_volume - qty =
            sideVol (aoSet b.active_orders id ⟨oid, oprice, ovol - qty, Side.S⟩) Side.S
          have hfs := sideVol_aoSet_found hf ⟨oid, oprice, ovol - qty, Side.S⟩ Side.S
          have hcs := contribSide_le_sideVol hf Side.S
          simp [contribSide] at hfs hcs
          have h2 := inv.askTO
          omega
    · -- full fill: remove the whole order and erase it from the table
      dsimp only
      rw [if_neg hqty]
      cases oside with
      | B =>
        have hole : ovol ≤ ladderVol b.bids oprice := by
          have h1 := contrib_le_ordVolAt hf Side.B oprice
          simp [contrib] at h1
          rw [inv.bidAt oprice]
          exact h1
        refine ⟨?_, ?_, ?_, ?_, ?_, ?_, ?_, ?_, ?_⟩
        · show LadderSorted bidCmp (remove_volume b.bids b.total_bid_volume oprice ovol).1
          exact remove_volume_sorted inv.bidSorted _ _ _
        · show LadderSorted askCmp b.asks
          exact inv.askSorted
        · show (aoKeys (aoErase b.active_orders id)).Nodup
          exact inv.aoNodup.sublist (aoKeys_aoErase_sublist _ _)
        · intro q
          show ladderVol (remove_volume b.bids b.total_bid_volume oprice ovol).1 q =
            ordVolAt (aoErase b.active_orders id) Side.B q
          rw [remove_volume_vol hnb b.total_bid_volume oprice ovol q]
          have herase := ordVolAt_aoErase hf Side.B q
          have hbq := inv.bidAt q
          have hbp := inv.bidAt oprice
          simp only [contrib, true_and] at herase
          by_cases h1 : q = oprice
          · subst h1
            simp at herase ⊢
            omega
          · simp [h1] at herase ⊢
            omega
        · intro q
          show ladderVol b.asks q = ordVolAt (aoErase b.active_orders id) Side.S q
          have herase := ordVolAt_aoErase hf Side.S q
          simp [contrib] at herase
          rw [inv.askAt q]
          omega
        · show (remove_volume b.bids b.total_bid_volume oprice ovol).2 =
            ladderSum (remove_volume b.bids b.total_bid_volume oprice ovol).1
          rw [remove_volume_sum hnb, remove_volume_total]
          have h1 := ladderVol_le_ladderSum b.bids oprice
          have h2 := inv.bidTL
          omega
        · show b.total_ask_volume = ladderSum b.asks
          exact inv.askTL
        · show (remove_volume b.bids b.total_bid_volume oprice ovol).2 =
            sideVol (aoErase b.active_orders id) Side.B
          rw [remove_volume_total]
          have hfs := sideVol_aoErase hf Side.B
          simp [contribSide] at hfs
          have h2 := inv.bidTO
          omega
        · show b.total_ask_volume = sideVol (aoErase b.active_orders id) Side.S
          have hfs := sideVol_aoErase hf Side.S
          simp [contribSide] at hfs
          rw [inv.askTO]
          omega
      | S =>
        have hole : ovol ≤ ladderVol b.asks oprice := by
          have h1 := contrib_le_ordVolAt hf Side.S oprice
          simp [contrib] at h1
          rw [inv.askAt oprice]
          exact h1
        refine ⟨?_, ?_, ?_, ?_, ?_, ?_, ?_, ?_, ?_⟩
        · show LadderSorted bidCmp b.bids
          exact inv.bidSorted
        · show LadderSorted askCmp (remove_volume b.asks b.total_ask_volume oprice ovol).1
          exact remove_volume_sorted inv.askSorted _ _ _
        · show (aoKeys (aoErase b.active_orders id)).Nodup
          exact inv.aoNodup.sublist (aoKeys_aoErase_sublist _ _)
        · intro q
          show ladderVol b.bids q = ordVolAt (aoErase b.active_orders id) Side.B q
          have herase := ordVolAt_aoErase hf Side.B q
          simp [contrib] at herase
          rw [inv.bidAt q]
          omega
        · intro q
          show ladderVol (remove_volume b.asks b.total_ask_volume oprice ovol).1 q =
            ordVolAt (aoErase b.active_orders id) Side.S q
          rw [remove_volume_vol hna b.total_ask_volume oprice ovol q]
          have herase := ordVolAt_aoErase hf Side.S q
          have hbq := inv.askAt q
          have hbp := inv.askAt oprice
          simp only [contrib, true_and] at herase
          by_cases h1 : q = oprice
          · subst h1
            simp at herase ⊢
            omega
          · simp [h1] at herase ⊢
            omega
        · show b.total_bid_volume = ladderSum b.bids
          exact inv.bidTL
        · show (remove_volume b.asks b.total_ask_volume oprice ovol).2 =
            ladderSum (remove_volume b.asks b.total_ask_volume oprice ovol).1
          rw [remove_volume_sum hna, remove_volume_total]
          have h1 := ladderVol_le_ladderSum b.asks oprice
          have h2 := inv.askTL
          omega
        · show b.total_bid_volume = sideVol (aoErase b.active_orders id) Side.B
          have hfs := sideVol_aoErase hf Side.B
          simp [contribSide] at hfs
          rw [inv.bidTO]
          omega
        · show (remove_volume b.asks b.total_ask_volume oprice ovol).2 =
            sideVol (aoErase b.active_orders id) Side.S
          rw [remove_volume_total]
          have hfs := sideVol_aoErase hf Side.S
          simp [contribSide] at hfs
          have h2 := inv.askTO
          omega

lemma aoFind_aoSet_self (ao : ActiveOrders) (id : ℕ) (o : Order) :
    aoFind (aoSet ao id o) id = some o := by
  induction ao with
  | nil => simp [aoSet, aoFind]
  | cons a rest ih =>
    obtain ⟨i, e⟩ := a
    by_cases hid : id = i
    · rw [aoSet, if_pos hid, aoFind, if_pos hid]
    · rw [aoSet, if_neg hid, aoFind, if_neg hid]
      exact ih

/-- One order-book operation, as dispatched by the event handlers. -/
inductive BookOp where
  | add (id : ℕ) (price : ℚ) (volume : ℕ) (sd : Side)
  | modify (id : ℕ) (new_price : ℚ) (new_volume : ℕ)
  | del (id : ℕ)
  | exec (id : ℕ) (qty : ℕ) (trade_price : ℚ)
  | clear
  | restore (bids asks : Ladder) (active : ActiveOrders)

def BookOp.apply : BookOp → OrderBook → OrderBook
  | .add id p v sd, b => add_order b id p v sd
  | .modify id np nv, b => modify_order b id np nv
  | .del id, b => delete_order b id
  | .exec id qty px, b => execute_order b id qty px
  | .clear, b => b.clear
  | .restore bids asks active, b => restore_from_snapshot b bids asks active

/-- Protocol well-formedness of one operation against the current book: an
ADD carries an id that is not already resting (the XDP feed never reuses a
live order id, and the spec asserts duplicate adds are rejected), and a
snapshot restore receives the content of a consistent book.
DELETE, MODIFY and EXECUTE are unrestricted: unknown ids are no-ops. -/
def BookOp.ok : BookOp → OrderBook → Prop
  | .add id _ _ _, b => aoFind b.active_orders id = none
  | .restore bids asks active, _ =>
      LadderSorted bidCmp bids ∧ LadderSorted askCmp asks ∧
      (aoKeys active).Nodup ∧
      (∀ p, ladderVol bids p = ordVolAt active Side.B p) ∧
      (∀ p, ladderVol asks p = ordVolAt active Side.S p) ∧
      ladderSum bids = sideVol active Side.B ∧
      ladderSum asks = sideVol active Side.S
  | _, _ => True

/-- C1 counterexample: the claim quantifies over every `add_order` call,
but `add_order` has no duplicate-id guard.  Adding id 1 twice (5 then 7
shares at price 10) leaves the bid ladder holding 12 shares while the only
resting order records 7, so the side sums disagree after an operation. -/
theorem c1_duplicate_add_breaks_sums :
    ¬ volumeSumsAgree
      (add_order (add_order OrderBook.empty 1 10 5 Side.B) 1 10 7 Side.B) := by
  unfold volumeSumsAgree
  decide

/-- C1 (amended): after every order-book operation applied to a consistent
book — where an ADD uses an id that is not already resting, as the XDP
protocol guarantees, and a restore receives a consistent snapshot — the
sum of per-price-level aggregate volumes on each side equals the sum of
the resting-order volumes in `active_orders` on that side, and the running
totals `total_bid_volume_` / `total_ask_volume_` equal a full scan of the
respective ladder.  The consistency invariant `BookInv` is itself
preserved, so the property holds after every operation of any
well-formed sequence. -/
theorem c1_volume_invariant (b : OrderBook) (op : BookOp)
    (hinv : BookInv b) (hok : op.ok b) :
    BookInv (op.apply b) ∧ volumeSumsAgree (op.apply b) := by
  have h : BookInv (op.apply b) := by
    cases op with
    | add id p v sd => exact add_order_inv hinv hok p v sd
    | modify id np nv => exact modify_order_inv hinv id np nv
    | del id => exact delete_order_inv hinv id
    | exec id qty px => exact execute_order_inv hinv id qty px
    | clear => exact clear_inv b
    | restore bids asks active =>
      exact restore_inv b hok.1 hok.2.1 hok.2.2.1 hok.2.2.2.1
        hok.2.2.2.2.1 hok.2.2.2.2.2.1 hok.2.2.2.2.2.2
  exact ⟨h, h.sums⟩

lemma bookInv_empty : BookInv OrderBook.empty := by
  refine ⟨?_, ?_, ?_, ?_, ?_, ?_, ?_, ?_, ?_⟩ <;>
    simp [OrderBook.empty, LadderSorted, aoKeys, ladderVol, ladderFind,
      ordVolAt, sideVol, ladderSum]

/-- C1 witness: the amended theorem applied to a fresh ADD on the empty
book. -/
theorem c1_volume_invariant_witness :
    BookInv (BookOp.apply (BookOp.add 1 10 100 Side.B) OrderBook.empty) ∧
    volumeSumsAgree (BookOp.apply (BookOp.add 1 10 100 Side.B) OrderBook.empty) :=
  c1_volume_invariant OrderBook.empty (BookOp.add 1 10 100 Side.B)
    bookInv_empty rfl

/-- A concrete book holding one resting bid order (id 1, 5 shares at 10),
used to exhibit the duplicate-add behaviour. -/
def c2_book : OrderBook := add_order OrderBook.empty 1 10 5 Side.B

/-- C2 counterexample: with order id 1 already resting, the call
`add_order(1, 10, 7, B)` is not a silent no-op — the book changes (the
ladder gains 7 shares, the running total moves from 5 to 12, the toxicity
counters tick, and the `active_orders` entry is overwritten). -/
theorem c2_duplicate_add_not_noop :
    aoFind c2_book.active_orders 1 ≠ none ∧
    add_order c2_book 1 10 7 Side.B ≠ c2_book := by
  constructor
  · decide
  · decide

/-- C2 (amended): `add_order` has no duplicate-id guard.  When an order
with the given id already rests, the call still increments the side
ladder and the running total by the new volume, still updates the side
toxicity map, and overwrites the `active_orders` entry with the new order,
orphaning the previously resting volume in the ladder. -/
theorem c2_duplicate_add_mutates (b : OrderBook) (id : ℕ) (p : ℚ) (v : ℕ)
    {o : Order} (hdup : aoFind b.active_orders id = some o) (sd : Side) :
    aoFind (add_order b id p v sd).active_orders id = some ⟨id, p, v, sd⟩ ∧
    (sd = Side.B →
      (add_order b id p v sd).total_bid_volume = b.total_bid_volume + v ∧
      (add_order b id p v sd).bids = ladderAdd bidCmp b.bids p v ∧
      (add_order b id p v sd).bid_toxicity =
        toxAdjust bidCmp b.bid_toxicity p
          (fun tm => update_toxicity_on_add tm p v)) ∧
    (sd = Side.S →
      (add_order b id p v sd).total_ask_volume = b.total_ask_volume + v ∧
      (add_order b id p v sd).asks = ladderAdd askCmp b.asks p v ∧
      (add_order b id p v sd).ask_toxicity =
        toxAdjust askCmp b.ask_toxicity p
          (fun tm => update_toxicity_on_add tm p v)) := by
  cases sd with
  | B =>
    refine ⟨?_, ?_, ?_⟩
    · show aoFind (aoSet b.active_orders id ⟨id, p, v, Side.B⟩) id =
        some ⟨id, p, v, Side.B⟩
      exact aoFind_aoSet_self _ _ _
    · intro _
      exact ⟨rfl, rfl, rfl⟩
    · intro h
      exact absurd h (by decide)
  | S =>
    refine ⟨?_, ?_, ?_⟩
    · show aoFind (aoSet b.active_orders id ⟨id, p, v, Side.S⟩) id =
        some ⟨id, p, v, Side.S⟩
      exact aoFind_aoSet_self _ _ _
    · intro h
      exact absurd h (by decide)
    · intro _
      exact ⟨rfl, rfl, rfl⟩

/-- C2 witness: the amended theorem applied to the concrete book with a
resting duplicate (total moves 5 to 12). -/
theorem c2_duplicate_add_mutates_witness :
    aoFind (add_order c2_book 1 10 7 Side.B).active_orders 1 =
      some ⟨1, 10, 7, Side.B⟩ ∧
    (add_order c2_book 1 10 7 Side.B).total_bid_volume = c2_book.total_bid_volume + 7 := by
  have h := c2_duplicate_add_mutates c2_book 1 10 7
    (o := ⟨1, 10, 5, Side.B⟩) (by decide) Side.B
  exact ⟨h.1, (h.2.1 rfl).1⟩

/-! ### Market-maker strategy (market_maker.hpp / market_maker.cpp)

The strategy state is rational-valued except for the online-model
override and the averaged toxicity statistic, which receive `ℝ` values
from the learning model.  The `our_order_ids_` table, `start_time` and
`sharpe_ratio` members are dropped: nothing in the claims reads them. -/

structure MarketMakerQuote where
  bid_price : ℚ := 0
  ask_price : ℚ := 0
  bid_size : ℕ := 0
  ask_size : ℕ := 0
  bid_order_id : ℕ := 0
  ask_order_id : ℕ := 0
  is_quoted : Bool := false
deriving Repr

structure MarketMakerStats where
  realized_pnl : ℚ := 0
  unrealized_pnl : ℚ := 0
  total_fills : ℕ := 0
  buy_fills : ℕ := 0
  sell_fills : ℕ := 0
  total_volume_traded : ℕ := 0
  avg_fill_price_buy : ℚ := 0
  avg_fill_price_sell : ℚ := 0
  max_inventory : ℚ := 0
  min_inventory : ℚ := 0
  inventory_variance : ℚ := 0
  quotes_suppressed : ℕ := 0
  adverse_fills : ℕ := 0
  avg_toxicity : ℝ := 0

/-- `MarketMakerStrategy` state with the elite-HFT parameter defaults of
`market_maker.hpp`. -/
structure MMStrat where
  use_toxicity_screen : Bool
  inventory : ℤ := 0
  realized_pnl : ℚ := 0
  unrealized_pnl : ℚ := 0
  fee_per_share : ℚ := 0
  avg_entry_price : ℚ := 0
  current_quotes : MarketMakerQuote := {}
  base_spread : ℚ := 0.01
  min_spread : ℚ := 0.01
  max_spread : ℚ := 0.10
  base_quote_size : ℕ := 1000
  max_position : ℚ := 100000
  tick_size : ℚ := 0.01
  inventory_skew_coefficient : ℚ := 0.02
  toxicity_spread_multiplier : ℚ := 1
  toxicity_quote_threshold : ℚ := 0.75
  obi_threshold : ℚ := 0.50
  stats : MarketMakerStats := {}
  mu_adverse : ℚ := 0.003
  gamma_risk : ℚ := 0.0005
  fill_probability : ℚ := 0.35
  use_override_toxicity : Bool := false
  override_toxicity : ℝ := 0

structure FeatureRatios where
  cancel_r : ℚ := 0
  ping_r : ℚ := 0
  odd_lot_r : ℚ := 0
  precision_r : ℚ := 0
  resistance_r : ℚ := 0
deriving DecidableEq, Repr

/-- `ToxicityMetrics::get_feature_ratios`. -/
def get_feature_ratios (tm : ToxicityMetrics) : FeatureRatios :=
  let total_events := tm.adds + tm.cancels
  if total_events = 0 then {}
  else
    { cancel_r := (tm.cancels : ℚ) / (total_events : ℚ)
      ping_r := (tm.ping_count : ℚ) / (total_events : ℚ)
      odd_lot_r := (tm.odd_lot_count : ℚ) / (total_events : ℚ)
      precision_r := (tm.high_precision_price_count : ℚ) / (total_events : ℚ)
      resistance_r := (tm.resistance_level_count : ℚ) / (total_events : ℚ) }

/-- `ToxicityMetrics::get_toxicity_score`: the five hand-calibrated
weights, capped at 1. -/
def get_toxicity_score (tm : ToxicityMetrics) : ℚ :=
  let fr := get_feature_ratios tm
  min (fr.cancel_r * 0.4 + fr.ping_r * 0.2 + fr.odd_lot_r * 0.15 +
    fr.precision_r * 0.15 + fr.resistance_r * 0.1) 1

/-- `OrderBook::get_toxicity`. -/
def get_toxicity (b : OrderBook) (price : ℚ) (sd : Side) : ℚ :=
  match sd with
  | Side.B =>
    match toxFind b.bid_toxicity price with
    | some tm => get_toxicity_score tm
    | none => 0
  | Side.S =>
    match toxFind b.ask_toxicity price with
    | some tm => get_toxicity_score tm
    | none => 0

/-- `std::clamp(v, lo, hi)`. -/
def clampQ (v lo hi : ℚ) : ℚ := if v < lo then lo else if hi < v then hi else v

/-- `MarketMakerStrategy::calculate_toxicity_adjusted_spread`
(market_maker.cpp:14-55).  The loop walks the first five levels of each
ladder, accumulating `get_toxicity` scores and a count, and clamps the
widened spread. -/
def calculate_toxicity_adjusted_spread (st : MMStrat) (b : OrderBook)
    (base_spread_val : ℚ) : ℚ :=
  if st.use_toxicity_screen = false then base_spread_val
  else if b.stats.best_bid = 0 ∨ b.stats.best_ask = 0 then base_spread_val
  else
    let bid5 := b.bids.take 5
    let ask5 := b.asks.take 5
    let toxicity_sum := (bid5.map (fun e => get_toxicity b e.1 Side.B)).sum +
      (ask5.map (fun e => get_toxicity b e.1 Side.S)).sum
    let toxicity_count := bid5.length + ask5.length
    let avg_toxicity : ℚ :=
      if 0 < toxicity_count then toxicity_sum / (toxicity_count : ℚ) else 0
    let adjusted_spread :=
      base_spread_val * (1 + avg_toxicity * st.toxicity_spread_multiplier)
    clampQ adjusted_spread st.min_spread st.max_spread

/-- The half-spread used by `update_market_data`:
`calculate_toxicity_adjusted_spread(base_spread_) / 2`. -/
def quoteHalfSpread (st : MMStrat) (b : OrderBook) : ℚ :=
  calculate_toxicity_adjusted_spread st b st.base_spread / 2

/-- Mean of the level toxicity scores over the top `n` bid and top `n`
ask levels (0 when no levels exist). -/
def avgToxTopLevels (b : OrderBook) (n : ℕ) : ℚ :=
  let scores := (b.bids.take n).map (fun e => get_toxicity b e.1 Side.B) ++
    (b.asks.take n).map (fun e => get_toxicity b e.1 Side.S)
  if scores.length = 0 then 0 else scores.sum / (scores.length : ℚ)

noncomputable def clampR (v lo hi : ℝ) : ℝ :=
  if v < lo then lo else if hi < v then hi else v

/-- Modelled from the claim C3 wording: half-spread equals
`clamp(base_spread * (1 + avg_toxicity * tox_multiplier), min_spread,
max_spread) / 2` where `avg_toxicity` is the mean of the level-toxicity
scores over the top three bid plus top three ask levels, or the scalar
installed by `set_override_toxicity` when the override is set. -/
noncomputable def specHalfSpreadC3 (st : MMStrat) (b : OrderBook) : ℝ :=
  let avg : ℝ :=
    if st.use_override_toxicity = true then st.override_toxicity
    else ((avgToxTopLevels b 3 : ℚ) : ℝ)
  clampR ((st.base_spread : ℝ) * (1 + avg * (st.toxicity_spread_multiplier : ℝ)))
    (st.min_spread : ℝ) (st.max_spread : ℝ) / 2

/-- A concrete two-level book (100 shares bid at 10, 100 shares asked at
11) with a valid BBO and fresh toxicity maps — exactly the state
`restore_from_snapshot` produces from such a snapshot. -/
def c3_book : OrderBook :=
  { bids := [(10, 100)]
    asks := [(11, 100)]
    active_orders := [(1, ⟨1, 10, 100, Side.B⟩), (2, ⟨2, 11, 100, Side.S⟩)]
    total_bid_volume := 100
    total_ask_volume := 100
    stats := { best_bid := 10, best_ask := 11, spread := 1, mid_price := 10.5,
               total_bid_qty := 100, total_ask_qty := 100,
               bid_levels := 1, ask_levels := 1 } }

/-- The toxicity-variant strategy with the online-model override set to 1
(as `set_override_toxicity(1.0)` would leave it). -/
noncomputable def c3_strat : MMStrat :=
  { use_toxicity_screen := true
    use_override_toxicity := true
    override_toxicity := 1 }

/-- C3 counterexample: with the override set to 1 on a book whose level
toxicity scores are all 0, the code computes half-spread
`clamp(0.01 * (1 + 0)) / 2 = 0.005` — the 5-level average, ignoring the
override — while the claimed formula gives `clamp(0.01 * 2) / 2 = 0.01`. -/
theorem c3_half_spread_claim_false :
    ((quoteHalfSpread c3_strat c3_book : ℚ) : ℝ) ≠ specHalfSpreadC3 c3_strat c3_book := by
  have h1 : quoteHalfSpread c3_strat c3_book = 1/200 := by
    rw [quoteHalfSpread, calculate_toxicity_adjusted_spread]
    norm_num [c3_strat, c3_book, get_toxicity, toxFind, clampQ]
  have h2 : specHalfSpreadC3 c3_strat c3_book = 1/100 := by
    rw [specHalfSpreadC3]
    have ho : c3_strat.use_override_toxicity = true := rfl
    rw [if_pos ho]
    have hov : c3_strat.override_toxicity = 1 := rfl
    rw [hov, clampR]
    norm_num [c3_strat]
  rw [h1, h2]
  norm_num

/-- C3 (amended): for the toxicity-variant strategy with a valid BBO, the
half-spread used by every quote computation equals
`clamp(base_spread * (1 + avg_toxicity * tox_multiplier), min_spread,
max_spread) / 2` where `avg_toxicity` is the mean of the level-toxicity
scores over the top FIVE bid plus top FIVE ask levels; the online-model
override installed by `set_override_toxicity` does not enter the spread
computation at all (it only feeds `get_average_toxicity`, which drives
quote suppression). -/
theorem c3_half_spread_five_levels (st : MMStrat) (b : OrderBook) (t : ℝ)
    (htox : st.use_toxicity_screen = true)
    (hbb : b.stats.best_bid ≠ 0) (hba : b.stats.best_ask ≠ 0) :
    quoteHalfSpread st b =
      clampQ (st.base_spread *
          (1 + avgToxTopLevels b 5 * st.toxicity_spread_multiplier))
        st.min_spread st.max_spread / 2 ∧
    quoteHalfSpread
      { st with use_override_toxicity := true, override_toxicity := t } b =
      quoteHalfSpread st b := by
  constructor
  · rw [quoteHalfSpread, calculate_toxicity_adjusted_spread]
    rw [if_neg (by simp [htox]), if_neg (by simp [hbb, hba])]
    rw [avgToxTopLevels]
    simp only [List.sum_append, List.length_append, List.length_map]
    rcases Nat.eq_zero_or_pos ((b.bids.take 5).length + (b.asks.take 5).length)
      with hc | hc
    · rw [if_neg (by omega), if_pos (by omega)]
    · rw [if_pos hc, if_neg (by omega)]
  · rfl

/-- C3 witness: the amended equations applied at the concrete book with
the override cleared. -/
theorem c3_half_spread_five_levels_witness :
    quoteHalfSpread { c3_strat with use_override_toxicity := false } c3_book =
      clampQ (({ c3_strat with use_override_toxicity := false } : MMStrat).base_spread *
          (1 + avgToxTopLevels c3_book 5 *
            ({ c3_strat with
                use_override_toxicity := false } : MMStrat).toxicity_spread_multiplier))
        ({ c3_strat with use_override_toxicity := false } : MMStrat).min_spread
        ({ c3_strat with use_override_toxicity := false } : MMStrat).max_spread / 2 :=
  (c3_half_spread_five_levels { c3_strat with use_override_toxicity := false }
    c3_book 1 rfl (by decide) (by decide)).1

/-! ### XDP packet message iteration (market_maker_sim.cpp packet_callback) -/

/-- Little-endian 16-bit read from a byte buffer (`xdp::read_le16`);
out-of-range reads yield 0, but every read below is bounds-checked first,
exactly as in the source. -/
def readLe16 (data : List ℕ) (off : ℕ) : ℕ :=
  data.getD off 0 + 256 * data.getD (off + 1) 0

/-- The message-iteration loop of `packet_callback`
(market_maker_sim.cpp:1365-1377): `for (i = 0; i < num_messages && offset
< length; i++)` with the header-fit check and the
`msg_size < 4 || offset + msg_size > length` break.  Returns the start
offsets of the messages handed to `process_xdp_message`. -/
def msg_loop (data : List ℕ) : ℕ → ℕ → List ℕ
  | 0, _ => []
  | n + 1, off =>
    if off < data.length then
      if data.length < off + 4 then []
      else if readLe16 data off < 4 ∨ data.length < off + readLe16 data off then []
      else off :: msg_loop data n (off + readLe16 data off)
    else []

/-- The offset at which the loop stops (for stating the stop cause). -/
def msg_stop (data : List ℕ) : ℕ → ℕ → ℕ
  | 0, off => off
  | n + 1, off =>
    if off < data.length then
      if data.length < off + 4 then off
      else if readLe16 data off < 4 ∨ data.length < off + readLe16 data off then off
      else msg_stop data n (off + readLe16 data off)
    else off

/-- `packet_callback` framing: packets shorter than the 16-byte header are
dropped; otherwise `num_messages` is byte 3 and iteration starts at
offset 16. -/
def packet_msgs (data : List ℕ) : List ℕ :=
  if data.length < 16 then [] else msg_loop data (data.getD 3 0) 16

/-- Modelled from the claim C9 wording: the loop processes exactly
`num_messages` messages, unless it stopped at a message (with a readable
size field) whose `msg_size` is below 4 or whose declared size would
overrun the payload. -/
def c9Claim (data : List ℕ) : Prop :=
  (packet_msgs data).length = data.getD 3 0 ∨
  (msg_stop data (data.getD 3 0) 16 + 4 ≤ data.length ∧
    (readLe16 data (msg_stop data (data.getD 3 0) 16) < 4 ∨
      data.length < msg_stop data (data.getD 3 0) 16 +
        readLe16 data (msg_stop data (data.getD 3 0) 16)))

/-- A 20-byte payload: a 16-byte packet header declaring `num_messages=2`,
followed by a single well-formed 4-byte message.  The payload ends exactly
at the message boundary. -/
def c9_packet : List ℕ :=
  [20, 0, 0, 2, 0, 0, 0, 0, 0, 0, 0, 0, 0, 0, 0, 0, 4, 0, 100, 0]

/-- C9 counterexample: on `c9_packet` the loop processes 1 of the declared
2 messages and stops because the payload is exhausted (offset = length) —
there is no message with `msg_size < 4` and no overrunning declared size,
so the claimed disjunction fails. -/
theorem c9_truncation_without_invalid_message : ¬ c9Claim c9_packet := by
  unfold c9Claim
  decide

/-- C9 (amended): the message loop processes a prefix of the declared
`num_messages` without ever aborting: every processed message has a
4-byte header inside the payload, `msg_size ≥ 4`, and fits the payload;
packets shorter than the 16-byte header process nothing; and whenever
fewer than `num_messages` messages are processed, the loop stopped either
because fewer than 4 bytes remain at the stop offset (including the clean
payload-exhausted case) or because the message there has `msg_size < 4`
or a declared size overrunning the payload. -/
theorem c9_message_loop_stops_early (data : List ℕ) :
    (data.length < 16 → packet_msgs data = []) ∧
    (packet_msgs data).length ≤ data.getD 3 0 ∧
    (∀ o ∈ packet_msgs data,
      o + 4 ≤ data.length ∧ 4 ≤ readLe16 data o ∧
        o + readLe16 data o ≤ data.length) ∧
    (16 ≤ data.length → (packet_msgs data).length < data.getD 3 0 →
      data.length < msg_stop data (data.getD 3 0) 16 + 4 ∨
      readLe16 data (msg_stop data (data.getD 3 0) 16) < 4 ∨
      data.length < msg_stop data (data.getD 3 0) 16 +
        readLe16 data (msg_stop data (data.getD 3 0) 16)) := by
  have key : ∀ n off,
      (msg_loop data n off).length ≤ n ∧
      (∀ o ∈ msg_loop data n off,
        o + 4 ≤ data.length ∧ 4 ≤ readLe16 data o ∧
          o + readLe16 data o ≤ data.length) ∧
      ((msg_loop data n off).length < n →
        data.length < msg_stop data n off + 4 ∨
        readLe16 data (msg_stop data n off) < 4 ∨
        data.length < msg_stop data n off + readLe16 data (msg_stop data n off)) := by
    intro n
    induction n with
    | zero => intro off; simp [msg_loop, msg_stop]
    | succ n ih =>
      intro off
      rw [msg_loop, msg_stop]
      by_cases h1 : off < data.length
      · rw [if_pos h1, if_pos h1]
        by_cases h2 : data.length < off + 4
        · rw [if_pos h2, if_pos h2]
          exact ⟨by simp, by simp, fun _ => Or.inl h2⟩
        · rw [if_neg h2, if_neg h2]
          by_cases h3 : readLe16 data off < 4 ∨ data.length < off + readLe16 data off
          · rw [if_pos h3, if_pos h3]
            exact ⟨by simp, by simp, fun _ => Or.inr h3⟩
          · rw [if_neg h3, if_neg h3]
            push_neg at h3
            obtain ⟨ha, hb, hc⟩ := ih (off + readLe16 data off)
            refine ⟨by simpa using ha, ?_, ?_⟩
            · intro o ho
              rcases List.mem_cons.mp ho with rfl | ho
              · exact ⟨by omega, by omega, by omega⟩
              · exact hb o ho
            · intro hlen
              exact hc (by simpa using hlen)
      · rw [if_neg h1, if_neg h1]
        exact ⟨by simp, by simp, fun _ => Or.inl (by omega)⟩
  refine ⟨?_, ?_, ?_, ?_⟩
  · intro hshort
    rw [packet_msgs, if_pos hshort]
  · rw [packet_msgs]
    by_cases hshort : data.length < 16
    · rw [if_pos hshort]; simp
    · rw [if_neg hshort]
      exact (key (data.getD 3 0) 16).1
  · intro o ho
    rw [packet_msgs] at ho
    by_cases hshort : data.length < 16
    · rw [if_pos hshort] at ho
      simp at ho
    · rw [if_neg hshort] at ho
      exact (key (data.getD 3 0) 16).2.1 o ho
  · intro hlong hlt
    rw [packet_msgs, if_neg (by omega)] at hlt
    exact (key (data.getD 3 0) 16).2.2 hlt

/-- C9 witness: the amended theorem applied to the concrete packet — one
message processed out of two declared, with the payload-exhausted stop
cause. -/
theorem c9_message_loop_stops_early_witness :
    c9_packet.length < msg_stop c9_packet (c9_packet.getD 3 0) 16 + 4 ∨
    readLe16 c9_packet (msg_stop c9_packet (c9_packet.getD 3 0) 16) < 4 ∨
    c9_packet.length < msg_stop c9_packet (c9_packet.getD 3 0) 16 +
      readLe16 c9_packet (msg_stop c9_packet (c9_packet.getD 3 0) 16) :=
  (c9_message_loop_stops_early c9_packet).2.2.2 (by decide) (by decide)

/-! ### Online toxicity model (market_maker.hpp, market_maker.cpp 415-483)

Modelled over `ℝ` because the source uses `std::sqrt` and `std::exp`. -/

/-- The fixed 8-dimensional feature vector (`ToxicityFeatureVector`). -/
structure ToxicityFeatureVector where
  features : Fin 8 → ℝ

/-- The hand-calibrated initial weights of `OnlineToxicityModel`. -/
noncomputable def initWeights : Fin 8 → ℝ := ![0.4, 0.2, 0.15, 0.15, 0.1, 0, 0, 0]

structure OnlineToxicityModel where
  weights : Fin 8 → ℝ
  bias : ℝ
  base_learning_rate : ℝ
  n_updates : ℕ
  warmup_fills : ℕ
  feat_mean : Fin 8 → ℝ
  feat_m2 : Fin 8 → ℝ
  feat_count : ℕ

/-- The constructor `OnlineToxicityModel(lr, warmup)` with the default
member initializers. -/
noncomputable def OnlineToxicityModel.init (lr : ℝ) (warmup : ℕ) :
    OnlineToxicityModel :=
  { weights := initWeights, bias := 0, base_learning_rate := lr,
    n_updates := 0, warmup_fills := warmup,
    feat_mean := fun _ => 0, feat_m2 := fun _ => 0, feat_count := 0 }

def OnlineToxicityModel.in_warmup (m : OnlineToxicityModel) : Bool :=
  decide (m.n_updates < m.warmup_fills)

noncomputable def OnlineToxicityModel.current_lr (m : OnlineToxicityModel) : ℝ :=
  m.base_learning_rate / (1 + (m.n_updates : ℝ) / 1000)

/-- `OnlineToxicityModel::update_normalization` — one Welford step on
every feature coordinate. -/
noncomputable def OnlineToxicityModel.update_normalization
    (m : OnlineToxicityModel) (fv : ToxicityFeatureVector) : OnlineToxicityModel :=
  { m with
    feat_count := m.feat_count + 1
    feat_mean := fun i =>
      m.feat_mean i + (fv.features i - m.feat_mean i) / ((m.feat_count + 1 : ℕ) : ℝ)
    feat_m2 := fun i =>
      m.feat_m2 i + (fv.features i - m.feat_mean i) *
        (fv.features i - (m.feat_mean i +
          (fv.features i - m.feat_mean i) / ((m.feat_count + 1 : ℕ) : ℝ))) }

/-- `OnlineToxicityModel::predict`. -/
noncomputable def OnlineToxicityModel.predict (m : OnlineToxicityModel)
    (fv : ToxicityFeatureVector) : ℝ :=
  if m.n_updates < m.warmup_fills then
    min (max ((∑ i, m.weights i * fv.features i) + m.bias) 0) 1
  else
    let z := m.bias + ∑ i,
      m.weights i *
        (if (1e-10 : ℝ) <
            (if 1 < m.feat_count then
              Real.sqrt (m.feat_m2 i / ((m.feat_count - 1 : ℕ) : ℝ)) else 1) then
          (fv.features i - m.feat_mean i) /
            (if 1 < m.feat_count then
              Real.sqrt (m.feat_m2 i / ((m.feat_count - 1 : ℕ) : ℝ)) else 1)
        else 0)
    1 / (1 + Real.exp (-z))

/-- `OnlineToxicityModel::update` — normalization always; during warmup
only the counter advances; afterwards one clipped SGD step. -/
noncomputable def OnlineToxicityModel.update (m : OnlineToxicityModel)
    (fv : ToxicityFeatureVector) (was_adverse : Bool) : OnlineToxicityModel :=
  let m1 := m.update_normalization fv
  if m1.n_updates < m1.warmup_fills then
    { m1 with n_updates := m1.n_updates + 1 }
  else
    let error := m1.predict fv - (if was_adverse then (1 : ℝ) else 0)
    let lr := m1.current_lr
    { m1 with
      weights := fun i =>
        min (max (m1.weights i - lr * error *
          (if (1e-10 : ℝ) <
              (if 1 < m1.feat_count then
                Real.sqrt (m1.feat_m2 i / ((m1.feat_count - 1 : ℕ) : ℝ)) else 1) then
            (fv.features i - m1.feat_mean i) /
              (if 1 < m1.feat_count then
                Real.sqrt (m1.feat_m2 i / ((m1.feat_count - 1 : ℕ) : ℝ)) else 1)
          else 0)) (-5)) 5
      bias := min (max (m1.bias - lr * error) (-5)) 5
      n_updates := m1.n_updates + 1 }

lemma clip_abs_le (x : ℝ) : |min (max x (-5)) 5| ≤ 5 := by
  rw [abs_le]
  constructor
  · exact le_min (le_trans (by norm_num) (le_max_right x (-5))) (by norm_num)
  · exact min_le_right _ _

lemma update_preserves_bounds {m : OnlineToxicityModel}
    (hw : ∀ i, |m.weights i| ≤ 5) (hb : |m.bias| ≤ 5)
    (fv : ToxicityFeatureVector) (lbl : Bool) :
    (∀ i, |(m.update fv lbl).weights i| ≤ 5) ∧ |(m.update fv lbl).bias| ≤ 5 := by
  rw [OnlineToxicityModel.update]
  by_cases hc : (m.update_normalization fv).n_updates <
      (m.update_normalization fv).warmup_fills
  · rw [if_pos hc]
    exact ⟨hw, hb⟩
  · rw [if_neg hc]
    exact ⟨fun i => clip_abs_le _, clip_abs_le _⟩

lemma init_bounds (lr : ℝ) (warmup : ℕ) :
    (∀ i, |(OnlineToxicityModel.init lr warmup).weights i| ≤ 5) ∧
    |(OnlineToxicityModel.init lr warmup).bias| ≤ 5 := by
  constructor
  · intro i
    show |initWeights i| ≤ 5
    rw [abs_le]
    fin_cases i <;> constructor <;> norm_num [initWeights]
  · show |(0 : ℝ)| ≤ 5
    norm_num

lemma foldl_preserves_bounds (updates : List (ToxicityFeatureVector × Bool)) :
    ∀ m : OnlineToxicityModel, (∀ i, |m.weights i| ≤ 5) → |m.bias| ≤ 5 →
    (∀ i, |(updates.foldl (fun acc u => acc.update u.1 u.2) m).weights i| ≤ 5) ∧
    |(updates.foldl (fun acc u => acc.update u.1 u.2) m).bias| ≤ 5 := by
  induction updates with
  | nil => intro m hw hb; exact ⟨hw, hb⟩
  | cons u rest ih =>
    intro m hw hb
    obtain ⟨hw', hb'⟩ := update_preserves_bounds hw hb u.1 u.2
    exact ih _ hw' hb'

/-- C7: after any sequence of `OnlineToxicityModel::update` calls on a
freshly constructed model, every weight satisfies `|w[i]| ≤ 5` and the
bias satisfies `|bias| ≤ 5` (the hard clip is applied on every SGD step,
and warmup steps leave the initial in-range values untouched). -/
theorem c7_model_clipping (lr : ℝ) (warmup : ℕ)
    (updates : List (ToxicityFeatureVector × Bool)) :
    (∀ i, |(updates.foldl (fun acc u => acc.update u.1 u.2)
        (OnlineToxicityModel.init lr warmup)).weights i| ≤ 5) ∧
    |(updates.foldl (fun acc u => acc.update u.1 u.2)
        (OnlineToxicityModel.init lr warmup)).bias| ≤ 5 :=
  foldl_preserves_bounds updates _ (init_bounds lr warmup).1 (init_bounds lr warmup).2

def featSum (xs : List ToxicityFeatureVector) (i : Fin 8) : ℝ :=
  (xs.map (fun fv => fv.features i)).sum

def featSqSum (xs : List ToxicityFeatureVector) (i : Fin 8) : ℝ :=
  (xs.map (fun fv => (fv.features i) ^ 2)).sum

lemma welford_step_mean {mean S x : ℝ} {n : ℕ} (hm : mean * n = S) :
    (mean + (x - mean) / ((n + 1 : ℕ) : ℝ)) * ((n + 1 : ℕ) : ℝ) = S + x := by
  have hn : ((n + 1 : ℕ) : ℝ) ≠ 0 := by positivity
  push_cast at hn ⊢
  field_simp
  linear_combination hm

lemma welford_step_m2 {mean m2 S Q x : ℝ} {n : ℕ} (hm : mean * n = S)
    (hq : m2 * n = n * Q - S ^ 2) (h0 : n = 0 → m2 = 0) (hq0 : n = 0 → Q = 0) :
    (m2 + (x - mean) * (x - (mean + (x - mean) / ((n + 1 : ℕ) : ℝ)))) *
        ((n + 1 : ℕ) : ℝ) =
      ((n + 1 : ℕ) : ℝ) * (Q + x ^ 2) - (S + x) ^ 2 := by
  rcases Nat.eq_zero_or_pos n with hn | hn
  · subst hn
    have hS : S = 0 := by simpa using hm.symm
    have hm2 := h0 rfl
    have hQ := hq0 rfl
    subst hS hQ
    rw [hm2]
    push_cast
    ring_nf
  · have hn' : (n : ℝ) ≠ 0 := by positivity
    have hmean : mean = S / (n : ℝ) := (eq_div_iff hn').mpr hm
    have hm2 : m2 = ((n : ℝ) * Q - S ^ 2) / (n : ℝ) := (eq_div_iff hn').mpr hq
    subst hmean hm2
    have hn1 : ((n + 1 : ℕ) : ℝ) ≠ 0 := by positivity
    push_cast at hn1 ⊢
    field_simp
    ring

lemma warmup_fold (us : List (ToxicityFeatureVector × Bool)) :
    ∀ (m : OnlineToxicityModel) (xs : List ToxicityFeatureVector),
    m.n_updates + us.length ≤ m.warmup_fills →
    m.feat_count = xs.length →
    (∀ i, m.feat_mean i * (xs.length : ℝ) = featSum xs i) →
    (∀ i, m.feat_m2 i * (xs.length : ℝ) =
      (xs.length : ℝ) * featSqSum xs i - featSum xs i ^ 2) →
    (xs.length = 0 → ∀ i, m.feat_m2 i = 0) →
    (us.foldl (fun acc u => acc.update u.1 u.2) m).weights = m.weights ∧
    (us.foldl (fun acc u => acc.update u.1 u.2) m).bias = m.bias ∧
    (us.foldl (fun acc u => acc.update u.1 u.2) m).n_updates =
      m.n_updates + us.length ∧
    (us.foldl (fun acc u => acc.update u.1 u.2) m).feat_count =
      xs.length + us.length ∧
    (∀ i, (us.foldl (fun acc u => acc.update u.1 u.2) m).feat_mean i *
        ((xs.length + us.length : ℕ) : ℝ) = featSum (xs ++ us.map Prod.fst) i) ∧
    (∀ i, (us.foldl (fun acc u => acc.update u.1 u.2) m).feat_m2 i *
        ((xs.length + us.length : ℕ) : ℝ) =
      ((xs.length + us.length : ℕ) : ℝ) * featSqSum (xs ++ us.map Prod.fst) i -
        featSum (xs ++ us.map Prod.fst) i ^ 2) := by
  induction us with
  | nil =>
    intro m xs _ hc hmean hm2 _
    refine ⟨rfl, rfl, by simp, by simpa using hc, ?_, ?_⟩
    · intro i
      simpa using hmean i
    · intro i
      simpa using hm2 i
  | cons u rest ih =>
    intro m xs hlen hc hmean hm2 h0
    have hwarm : m.n_updates < m.warmup_fills := by
      simp only [List.length_cons] at hlen
      omega
    have hcond : (m.update_normalization u.1).n_updates <
        (m.update_normalization u.1).warmup_fills := hwarm
    have hstep : m.update u.1 u.2 =
        { m.update_normalization u.1 with
          n_updates := (m.update_normalization u.1).n_updates + 1 } := by
      rw [OnlineToxicityModel.update, if_pos hcond]
    rw [List.foldl_cons, hstep]
    have hres := ih { m.update_normalization u.1 with
        n_updates := (m.update_normalization u.1).n_updates + 1 } (xs ++ [u.1])
      (by
        show m.n_updates + 1 + rest.length ≤ m.warmup_fills
        simp only [List.length_cons] at hlen
        omega)
      (by
        show m.feat_count + 1 = (xs ++ [u.1]).length
        simp [hc])
      (by
        intro i
        show (m.feat_mean i + (u.1.features i - m.feat_mean i) /
            ((m.feat_count + 1 : ℕ) : ℝ)) * ((xs ++ [u.1]).length : ℝ) =
          featSum (xs ++ [u.1]) i
        rw [hc]
        have := welford_step_mean (x := u.1.features i) (hmean i)
        simp only [List.length_append, List.length_singleton]
        rw [show ((xs.length + 1 : ℕ) : ℝ) = ((xs.length + 1 : ℕ) : ℝ) from rfl]
        simp only [featSum, List.map_append, List.sum_append, List.map_cons,
          List.map_nil, List.sum_cons, List.sum_nil] at this ⊢
        push_cast at this ⊢
        linarith [this])
      (by
        intro i
        show (m.feat_m2 i + (u.1.features i - m.feat_mean i) *
            (u.1.features i - (m.feat_mean i + (u.1.features i - m.feat_mean i) /
              ((m.feat_count + 1 : ℕ) : ℝ)))) * ((xs ++ [u.1]).length : ℝ) =
          ((xs ++ [u.1]).length : ℝ) * featSqSum (xs ++ [u.1]) i -
            featSum (xs ++ [u.1]) i ^ 2
        rw [hc]
        have := welford_step_m2 (x := u.1.features i) (hmean i) (hm2 i)
          (fun h => h0 h i)
          (fun h => by
            have : xs = [] := List.length_eq_zero.mp h
            simp [this, featSqSum])
        simp only [List.length_append, List.length_singleton]
        simp only [featSum, featSqSum, List.map_append, List.sum_append,
          List.map_cons, List.map_nil, List.sum_cons, List.sum_nil] at this ⊢
        push_cast at this ⊢
        linarith [this])
      (by
        intro h
        simp at h)
    obtain ⟨rw1, rw2, rw3, rw4, rw5, rw6⟩ := hres
    refine ⟨rw1, rw2, ?_, ?_, ?_, ?_⟩
    · rw [rw3]
      show m.n_updates + 1 + rest.length = m.n_updates + (rest.length + 1)
      omega
    · rw [rw4]
      simp only [List.length_append, List.length_cons, List.length_nil]
      omega
    · intro i
      have heq : (xs.length + (u :: rest).length : ℕ) =
          (xs ++ [u.1]).length + rest.length := by
        simp only [List.length_append, List.length_cons, List.length_nil]
        omega
      rw [heq]
      have := rw5 i
      simp only [List.map_cons, List.append_assoc, List.singleton_append] at this ⊢
      exact this
    · intro i
      have heq : (xs.length + (u :: rest).length : ℕ) =
          (xs ++ [u.1]).length + rest.length := by
        simp only [List.length_append, List.length_cons, List.length_nil]
        omega
      rw [heq]
      have := rw6 i
      simp only [List.map_cons, List.append_assoc, List.singleton_append] at this ⊢
      exact this

noncomputable def zeroFv : ToxicityFeatureVector := ⟨fun _ => 0⟩

/-- C8: starting from a fresh model with warmup threshold `wf`, any run of at
most `wf` calls to `OnlineToxicityModel.update` leaves the weights at the
hand-calibrated initial vector and the bias at zero, while `n_updates` and
`feat_count` advance by one per call and `feat_mean`/`feat_m2` hold exactly
the Welford running mean and sum-of-squared-deviations of the feature vectors
seen so far; and the `(wf + 1)`-th call is the first that can change the
weights or bias — witnessed concretely for `wf = 1`, where the second call
moves the bias away from its initial value. -/
theorem c8_warmup_behavior :
    (∀ (lr : ℝ) (wf : ℕ) (us : List (ToxicityFeatureVector × Bool)),
      us.length ≤ wf →
      (us.foldl (fun acc u => acc.update u.1 u.2)
          (OnlineToxicityModel.init lr wf)).weights = initWeights ∧
      (us.foldl (fun acc u => acc.update u.1 u.2)
          (OnlineToxicityModel.init lr wf)).bias = 0 ∧
      (us.foldl (fun acc u => acc.update u.1 u.2)
          (OnlineToxicityModel.init lr wf)).n_updates = us.length ∧
      (us.foldl (fun acc u => acc.update u.1 u.2)
          (OnlineToxicityModel.init lr wf)).feat_count = us.length ∧
      (∀ i, (us.foldl (fun acc u => acc.update u.1 u.2)
          (OnlineToxicityModel.init lr wf)).feat_mean i * (us.length : ℝ) =
        featSum (us.map Prod.fst) i) ∧
      (∀ i, (us.foldl (fun acc u => acc.update u.1 u.2)
          (OnlineToxicityModel.init lr wf)).feat_m2 i * (us.length : ℝ) =
        (us.length : ℝ) * featSqSum (us.map Prod.fst) i -
          featSum (us.map Prod.fst) i ^ 2)) ∧
    (((OnlineToxicityModel.init 1 1).update zeroFv false).update zeroFv
        true).bias ≠ (OnlineToxicityModel.init 1 1).bias := by
  constructor
  · intro lr wf us hlen
    have h := warmup_fold us (OnlineToxicityModel.init lr wf) []
      (by show 0 + us.length ≤ wf; omega)
      rfl
      (by intro i; show (0 : ℝ) * _ = _; simp [featSum])
      (by intro i; show (0 : ℝ) * _ = _; simp [featSum, featSqSum])
      (fun _ _ => rfl)
    obtain ⟨h1, h2, h3, h4, h5, h6⟩ := h
    refine ⟨h1, h2, ?_, ?_, ?_, ?_⟩
    · rw [h3]
      show 0 + us.length = us.length
      omega
    · rw [h4]
      show [].length + us.length = us.length
      simp
    · intro i
      have := h5 i
      simpa using this
    · intro i
      have := h6 i
      simpa using this
  · show (((OnlineToxicityModel.init 1 1).update zeroFv false).update zeroFv
        true).bias ≠ (OnlineToxicityModel.init 1 1).bias
    have hbias : (((OnlineToxicityModel.init 1 1).update zeroFv false).update
        zeroFv true).bias = 500 / 1001 := by
      norm_num [OnlineToxicityModel.update, OnlineToxicityModel.update_normalization,
        OnlineToxicityModel.init, OnlineToxicityModel.predict,
        OnlineToxicityModel.current_lr, zeroFv, Real.sqrt_zero, Real.exp_zero,
        Finset.sum_const_zero, min_def, max_def]
    rw [hbias]
    show (500 / 1001 : ℝ) ≠ 0
    norm_num

/-- Concrete instantiation of the C8 warmup theorem: one update against a
warmup threshold of three leaves the weights at their initial values. -/
theorem c8_warmup_behavior_witness :
    [(zeroFv, true)].length ≤ 3 ∧
    ([(zeroFv, true)].foldl (fun acc u => acc.update u.1 u.2)
        (OnlineToxicityModel.init 1 3)).weights = initWeights :=
  ⟨by norm_num, (c8_warmup_behavior.1 1 3 [(zeroFv, true)] (by norm_num)).1⟩

/-- `MarketMakerStrategy::round_to_tick`: `std::round` is half away from
zero. -/
def round_to_tick (st : MMStrat) (p : ℚ) : ℚ :=
  (roundHalfAway (p / st.tick_size) : ℚ) * st.tick_size

/-- `MarketMakerStrategy::calculate_inventory_skew`. -/
def calculate_inventory_skew (st : MMStrat) : ℚ :=
  let inventory_ratio := (st.inventory : ℚ) / st.max_position
  let skew := -inventory_ratio * st.inventory_skew_coefficient
  skew - (1/2) * inventory_ratio * (abs inventory_ratio) * st.inventory_skew_coefficient

/-- `MarketMakerStrategy::calculate_obi`. -/
def calculate_obi (b : OrderBook) : ℚ :=
  let total_qty : ℚ := (b.stats.total_bid_qty : ℚ) + (b.stats.total_ask_qty : ℚ)
  if total_qty < 1 then 0
  else ((b.stats.total_bid_qty : ℚ) - (b.stats.total_ask_qty : ℚ)) / total_qty

/-- `MarketMakerStrategy::get_average_toxicity`: the online-model override
when set, otherwise the mean of the level toxicity scores over the top
three bid and three ask levels. -/
noncomputable def get_average_toxicity (st : MMStrat) (b : OrderBook) : ℝ :=
  if st.use_override_toxicity = true then st.override_toxicity
  else ((avgToxTopLevels b 3 : ℚ) : ℝ)

/-- `MarketMakerStrategy::set_override_toxicity`. -/
def set_override_toxicity (st : MMStrat) (t : ℝ) : MMStrat :=
  { st with use_override_toxicity := true, override_toxicity := t }

/-- `MarketMakerStrategy::get_inventory`. -/
def get_inventory (st : MMStrat) : ℚ := (st.inventory : ℚ)

/-- `MarketMakerStrategy::get_current_toxicity` forwards to
`get_average_toxicity`. -/
noncomputable def get_current_toxicity (st : MMStrat) (b : OrderBook) : ℝ :=
  get_average_toxicity st b

/-- `MarketMakerStrategy::calculate_expected_pnl`. -/
noncomputable def calculate_expected_pnl (st : MMStrat) (spread : ℚ)
    (toxicity : ℝ) (inventory_risk : ℚ) : ℝ :=
  let half_spread_capture : ℚ := spread / 2
  let rebate_per_share : ℚ := -st.fee_per_share
  let expected_adverse : ℝ := toxicity * (st.mu_adverse : ℝ)
  (st.fill_probability : ℝ) *
    ((half_spread_capture : ℝ) + (rebate_per_share : ℝ) - expected_adverse) -
    (inventory_risk : ℝ)

/-- `MarketMakerStrategy::update_market_data` (market_maker.cpp:118-231).
The quote sizes are `uint32_t`, so `base_quote_size / 2` is integer
division; `should_quote` is inlined as its conjunction. -/
noncomputable def update_market_data (st : MMStrat) (b : OrderBook) : MMStrat :=
  let avg_toxicity : ℝ :=
    if st.use_toxicity_screen = true then get_average_toxicity st b else 0
  let obi : ℚ := if st.use_toxicity_screen = true then calculate_obi b else 0
  if b.stats.best_bid = 0 ∨ b.stats.best_ask = 0 then
    { st with current_quotes := { st.current_quotes with is_quoted := false } }
  else
    let mid := b.stats.mid_price
    let spread := calculate_toxicity_adjusted_spread st b st.base_spread
    let half_spread := spread / 2
    let inventory_skew := calculate_inventory_skew st
    let st1 :=
      if st.use_toxicity_screen = true then
        { st with stats := { st.stats with avg_toxicity := avg_toxicity } }
      else st
    let suppress := fun (m : MMStrat) =>
      { m with
        stats := { m.stats with quotes_suppressed := m.stats.quotes_suppressed + 1 }
        current_quotes := { m.current_quotes with
          is_quoted := false, bid_size := 0, ask_size := 0 } }
    let inventory_risk : ℚ := st.gamma_risk * (st.inventory : ℚ) * (st.inventory : ℚ)
    let expected_pnl : ℝ := calculate_expected_pnl st spread avg_toxicity inventory_risk
    if st.use_toxicity_screen = true ∧ (st.toxicity_quote_threshold : ℝ) < avg_toxicity then
      suppress st1
    else if st.use_toxicity_screen = true ∧
        ¬ ((1/2000 : ℝ) < expected_pnl ∧ ((|st.inventory| : ℤ) : ℚ) < st.max_position) then
      suppress st1
    else
      let bp0 := round_to_tick st (mid - half_spread + inventory_skew)
      let ap0 := round_to_tick st (mid + half_spread + inventory_skew)
      let bp1 := if ap0 ≤ bp0 then round_to_tick st (mid - st.tick_size) else bp0
      let ap1 := if ap0 ≤ bp0 then round_to_tick st (mid + st.tick_size) else ap0
      let inventory_pct := (st.inventory : ℚ) / st.max_position
      let bs1 : ℕ :=
        if 7/10 < inventory_pct then 0
        else if 3/10 < inventory_pct then st.base_quote_size / 2
        else if inventory_pct < -(7/10) then st.base_quote_size * 3
        else if inventory_pct < -(3/10) then st.base_quote_size * 2
        else st.base_quote_size
      let as1 : ℕ :=
        if 7/10 < inventory_pct then st.base_quote_size * 3
        else if 3/10 < inventory_pct then st.base_quote_size * 2
        else if inventory_pct < -(7/10) then 0
        else if inventory_pct < -(3/10) then st.base_quote_size / 2
        else st.base_quote_size
      let obiUp := st.use_toxicity_screen = true ∧ st.obi_threshold < obi
      let obiDown := st.use_toxicity_screen = true ∧ obi < -st.obi_threshold
      let bp2 := if obiUp then bp1
        else if obiDown then round_to_tick st (bp1 - st.tick_size) else bp1
      let ap2 := if obiUp then round_to_tick st (ap1 + st.tick_size)
        else if obiDown then ap1 else ap1
      let bs2 := if obiUp then bs1 else if obiDown then bs1 / 2 else bs1
      let as2 := if obiUp then as1 / 2 else if obiDown then as1 else as1
      let last_trade := b.last_traded_price
      let mark := if 0 < last_trade then last_trade else mid
      let upnl : ℚ :=
        if 0 < st.inventory then (mark - st.avg_entry_price) * (st.inventory : ℚ)
        else if st.inventory < 0 then
          (st.avg_entry_price - mark) * ((-st.inventory : ℤ) : ℚ)
        else 0
      { st1 with
        current_quotes := { st1.current_quotes with
          bid_price := bp2, ask_price := ap2, bid_size := bs2, ask_size := as2,
          is_quoted := decide (0 < bs2 ∨ 0 < as2) }
        unrealized_pnl := upnl }

/-- `MarketMakerStrategy::get_current_quotes`. -/
def get_current_quotes (st : MMStrat) : MarketMakerQuote := st.current_quotes

/-- `MarketMakerStrategy::on_order_filled` (market_maker.cpp:237-319). -/
def on_order_filled (st : MMStrat) (is_buy : Bool) (price : ℚ) (size : ℕ) :
    MMStrat :=
  let qty : ℤ := (size : ℤ)
  let st :=
    if is_buy = true then
      let st :=
        if 0 ≤ st.inventory then
          let new_pos := st.inventory + qty
          { st with
            avg_entry_price :=
              if new_pos ≠ 0 then
                (st.avg_entry_price * (st.inventory : ℚ) + price * (qty : ℚ)) /
                  (new_pos : ℚ)
              else 0
            inventory := new_pos }
        else
          let cover_qty := min qty (-st.inventory)
          let st := { st with
            realized_pnl := st.realized_pnl + (st.avg_entry_price - price) * (cover_qty : ℚ)
            inventory := st.inventory + cover_qty }
          let remaining := qty - cover_qty
          if st.inventory = 0 ∧ 0 < remaining then
            { st with inventory := remaining, avg_entry_price := price }
          else if st.inventory = 0 then { st with avg_entry_price := 0 }
          else st
      { st with stats := { st.stats with
          buy_fills := st.stats.buy_fills + 1
          avg_fill_price_buy :=
            (st.stats.avg_fill_price_buy * (st.stats.buy_fills : ℚ) + price) /
              ((st.stats.buy_fills + 1 : ℕ) : ℚ) } }
    else
      let st :=
        if st.inventory ≤ 0 then
          let new_short_abs := (-st.inventory) + qty
          { st with
            avg_entry_price :=
              if new_short_abs ≠ 0 then
                (st.avg_entry_price * ((-st.inventory : ℤ) : ℚ) + price * (qty : ℚ)) /
                  (new_short_abs : ℚ)
              else 0
            inventory := st.inventory - qty }
        else
          let close_qty := min qty st.inventory
          let st := { st with
            realized_pnl := st.realized_pnl + (price - st.avg_entry_price) * (close_qty : ℚ)
            inventory := st.inventory - close_qty }
          let remaining := qty - close_qty
          if st.inventory = 0 ∧ 0 < remaining then
            { st with inventory := -remaining, avg_entry_price := price }
          else if st.inventory = 0 then { st with avg_entry_price := 0 }
          else st
      { st with stats := { st.stats with
          sell_fills := st.stats.sell_fills + 1
          avg_fill_price_sell :=
            (st.stats.avg_fill_price_sell * (st.stats.sell_fills : ℚ) + price) /
              ((st.stats.sell_fills + 1 : ℕ) : ℚ) } }
  let st := { st with
    stats := { st.stats with
      total_fills := st.stats.total_fills + 1
      total_volume_traded := st.stats.total_volume_traded + size }
    realized_pnl := st.realized_pnl - st.fee_per_share * (size : ℚ) }
  { st with stats := { st.stats with
      max_inventory := max st.stats.max_inventory (st.inventory : ℚ)
      min_inventory := min st.stats.min_inventory (st.inventory : ℚ) } }

/-- `TradeFlowTracker`: circular buffer of the last 100 trades.  The
array is a total function, indices used live in `[0, 100)`. -/
structure TradeFlowTracker where
  buffer : ℕ → Bool × ℕ := fun _ => (false, 0)
  head : ℕ := 0
  count : ℕ := 0

def TradeFlowTracker.record_trade (t : TradeFlowTracker) (is_buy : Bool)
    (volume : ℕ) : TradeFlowTracker :=
  { buffer := fun i => if i = t.head then (is_buy, volume) else t.buffer i
    head := (t.head + 1) % 100
    count := if t.count < 100 then t.count + 1 else t.count }

def TradeFlowTracker.get_imbalance (t : TradeFlowTracker) : ℚ :=
  if t.count = 0 then 0
  else
    let buy_vol : ℚ := ((List.range t.count).map
      (fun i => if (t.buffer i).1 = true then ((t.buffer i).2 : ℚ) else 0)).sum
    let sell_vol : ℚ := ((List.range t.count).map
      (fun i => if (t.buffer i).1 = true then 0 else ((t.buffer i).2 : ℚ))).sum
    let total := buy_vol + sell_vol
    if 0 < total then (buy_vol - sell_vol) / total else 0

/-- `SpreadTracker` (and the structurally identical `MomentumTracker`):
circular buffer of the last 50 samples.  In `get_spread_change_rate` the
C++ index `(head - 1 + WINDOW) % WINDOW` is written `(head + 49) % 50`,
which agrees for every in-range `head`. -/
structure SpreadTracker where
  buffer : ℕ → ℚ := fun _ => 0
  head : ℕ := 0
  count : ℕ := 0

def SpreadTracker.record_spread (t : SpreadTracker) (spread : ℚ) :
    SpreadTracker :=
  { buffer := fun i => if i = t.head then spread else t.buffer i
    head := (t.head + 1) % 50
    count := if t.count < 50 then t.count + 1 else t.count }

def SpreadTracker.get_spread_change_rate (t : SpreadTracker) : ℚ :=
  if t.count < 2 then 0
  else
    let current := t.buffer ((t.head + 49) % 50)
    let oldest_idx := if t.count < 50 then 0 else t.head
    let oldest := t.buffer oldest_idx
    if 1/10000000000 < oldest then (current - oldest) / oldest else 0

abbrev MomentumTracker := SpreadTracker

def MomentumTracker.record_mid (t : MomentumTracker) (mid : ℚ) :
    MomentumTracker := t.record_spread mid

def MomentumTracker.get_momentum (t : MomentumTracker) : ℚ :=
  t.get_spread_change_rate

inductive FillMode where
  | Cross
  | Match
deriving DecidableEq, Repr

/-- `ExecutionModelConfig` with its default member initializers.  The
latency and queue-position distribution parameters are carried but the
drawn samples come from the oracle stream (see `PerSymbolSim.draws`). -/
structure ExecutionModelConfig where
  seed : ℕ := 42
  latency_us_mean : ℚ := 5
  latency_us_jitter : ℚ := 1
  quote_update_interval_us : ℕ := 10
  queue_position_fraction : ℚ := 1/200
  queue_position_variance : ℚ := 1/10
  adverse_lookforward_us : ℕ := 250
  adverse_selection_multiplier : ℚ := 3/100
  quote_exposure_window_us : ℕ := 10
  maker_rebate_per_share : ℚ := 1/400
  taker_fee_per_share : ℚ := 3/1000
  clearing_fee_per_share : ℚ := 1/12500
  max_position_per_symbol : ℚ := 50000
  max_daily_loss_per_symbol : ℚ := 5000
  max_portfolio_loss : ℚ := 500000
  min_spread_to_trade : ℚ := 1/100
  max_spread_to_trade : ℚ := 1/5
  min_depth_to_trade : ℕ := 100
  fill_mode : FillMode := FillMode.Cross

/-- `SimConfig`. -/
structure SimConfig where
  exec : ExecutionModelConfig := {}
  output_dir : String := ""
  online_learning : Bool := false
  learning_rate : ℝ := 0.01
  warmup_fills : ℕ := 50
  toxicity_threshold : ℚ := 0
  toxicity_multiplier : ℚ := 0

/-- `VirtualOrder`. -/
structure VirtualOrder where
  price : ℚ := 0
  size : ℕ := 0
  remaining : ℕ := 0
  active_at_ns : ℕ := 0
  exposed_until_ns : ℕ := 0
  queue_ahead : ℕ := 0
  live : Bool := false
deriving DecidableEq, Repr

/-- `StrategyExecState`. -/
structure StrategyExecState where
  bid : VirtualOrder := {}
  ask : VirtualOrder := {}
deriving DecidableEq, Repr

/-- `FillRecord`. -/
structure FillRecord where
  fill_time_ns : ℕ := 0
  fill_price : ℚ := 0
  fill_qty : ℕ := 0
  is_buy : Bool := false
  mid_price_at_fill : ℚ := 0
  toxicity_at_fill : ℝ := 0
  adverse_measured : Bool := false
  adverse_pnl : ℚ := 0
  features : ToxicityFeatureVector := ⟨fun _ => 0⟩

/-- `SymbolRiskState`.  The inventory samples fed to the Welford tracker
are exact rationals (`get_inventory` casts the integer inventory). -/
structure SymbolRiskState where
  realized_pnl : ℚ := 0
  unrealized_pnl : ℚ := 0
  halted : Bool := false
  total_fills : ℕ := 0
  total_adverse_pnl : ℚ := 0
  adverse_fills : ℕ := 0
  inv_mean : ℚ := 0
  inv_m2 : ℚ := 0
  inv_count : ℕ := 0
deriving DecidableEq, Repr

/-- `SymbolRiskState::update_inventory_variance`. -/
def SymbolRiskState.update_inventory_variance (r : SymbolRiskState)
    (inventory : ℚ) : SymbolRiskState :=
  let c := r.inv_count + 1
  let delta := inventory - r.inv_mean
  let mean := r.inv_mean + delta / (c : ℚ)
  let delta2 := inventory - mean
  { r with inv_count := c, inv_mean := mean, inv_m2 := r.inv_m2 + delta * delta2 }

/-- `PerSymbolSim::OrderInfo`. -/
structure OrderInfo where
  side : Side
  price : ℚ
  volume : ℕ
  add_time_ns : ℕ
deriving DecidableEq, Repr

abbrev OrderInfoMap := List (ℕ × OrderInfo)

def oiFind : OrderInfoMap → ℕ → Option OrderInfo
  | [], _ => none
  | (i, o) :: rest, id => if id = i then some o else oiFind rest id

def oiSet : OrderInfoMap → ℕ → OrderInfo → OrderInfoMap
  | [], id, o => [(id, o)]
  | (i, e) :: rest, id, o =>
    if id = i then (i, o) :: rest else (i, e) :: oiSet rest id o

def oiErase : OrderInfoMap → ℕ → OrderInfoMap
  | [], _ => []
  | (i, e) :: rest, id => if id = i then rest else (i, e) :: oiErase rest id

/-- `PerSymbolSim`: the per-symbol simulation state.  The Mersenne
twister is replaced by `draws`, an oracle stream of the samples the
distributions would return (one entry per distribution call). -/
structure PerSymbolSim where
  order_book : OrderBook := {}
  mm_baseline : MMStrat := { use_toxicity_screen := false }
  mm_toxicity : MMStrat := { use_toxicity_screen := true }
  order_info : OrderInfoMap := []
  last_cleanup_ns : ℕ := 0
  eligible_to_trade : Bool := true
  baseline_state : StrategyExecState := {}
  toxicity_state : StrategyExecState := {}
  last_quote_update_ns : ℕ := 0
  baseline_risk : SymbolRiskState := {}
  toxicity_risk : SymbolRiskState := {}
  baseline_pending_fills : List FillRecord := []
  toxicity_pending_fills : List FillRecord := []
  baseline_completed_fills : List FillRecord := []
  toxicity_completed_fills : List FillRecord := []
  online_model : OnlineToxicityModel := OnlineToxicityModel.init 0.01 50
  trade_flow : TradeFlowTracker := {}
  spread_tracker : SpreadTracker := {}
  momentum_tracker : MomentumTracker := {}
  config : SimConfig := {}
  draws : List ℚ := []

/-- Pop the next oracle sample (0 when the stream is exhausted). -/
def popDraw (s : PerSymbolSim) : ℚ × PerSymbolSim :=
  match s.draws with
  | [] => (0, s)
  | d :: ds => (d, { s with draws := ds })

/-- `PerSymbolSim::sample_latency_ns`: clamp the drawn microseconds to at
least 5, convert to nanoseconds, truncate. -/
def sample_latency_ns (s : PerSymbolSim) : ℕ × PerSymbolSim :=
  let r := popDraw s
  let us := max r.1 5
  (Int.toNat ⌊us * 1000⌋, r.2)

/-- `PerSymbolSim::calculate_queue_position`: zero without a draw when no
visible depth; otherwise the drawn position clamped below by 0 and
truncated. -/
def calculate_queue_position (s : PerSymbolSim) (price : ℚ) (side : Side) :
    ℕ × PerSymbolSim :=
  let visible_depth :=
    match side with
    | Side.B => ladderVol s.order_book.bids price
    | Side.S => ladderVol s.order_book.asks price
  if visible_depth = 0 then (0, s)
  else
    let r := popDraw s
    (Int.toNat ⌊max 0 r.1⌋, r.2)

/-- `PerSymbolSim::check_eligibility`. -/
def check_eligibility (s : PerSymbolSim) : Bool :=
  let stats := s.order_book.stats
  if stats.best_bid ≤ 0 ∨ stats.best_ask ≤ 0 then false
  else if stats.spread < s.config.exec.min_spread_to_trade then false
  else if s.config.exec.max_spread_to_trade < stats.spread then false
  else if stats.total_bid_qty < s.config.exec.min_depth_to_trade then false
  else if stats.total_ask_qty < s.config.exec.min_depth_to_trade then false
  else true

/-- `PerSymbolSim::check_risk_limits`: sets `halted` and returns false
once total PnL breaches the loss limit. -/
def check_risk_limits (cfg : SimConfig) (risk : SymbolRiskState) :
    SymbolRiskState × Bool :=
  let total_pnl := risk.realized_pnl + risk.unrealized_pnl + risk.total_adverse_pnl
  if total_pnl < -cfg.exec.max_daily_loss_per_symbol then
    ({ risk with halted := true }, false)
  else (risk, true)

/-- `OrderBook::get_feature_ratios(price, side)` as used by
`build_feature_vector`. -/
def book_feature_ratios (b : OrderBook) (price : ℚ) (sd : Side) :
    FeatureRatios :=
  match sd with
  | Side.B =>
    match toxFind b.bid_toxicity price with
    | some tm => get_feature_ratios tm
    | none => {}
  | Side.S =>
    match toxFind b.ask_toxicity price with
    | some tm => get_feature_ratios tm
    | none => {}

/-- `PerSymbolSim::build_feature_vector`: averages of the five book
feature ratios over the top three bid and three ask levels, then the
three temporal tracker features. -/
noncomputable def build_feature_vector (s : PerSymbolSim) :
    ToxicityFeatureVector :=
  let frs :=
    (s.order_book.bids.take 3).map
      (fun e => book_feature_ratios s.order_book e.1 Side.B) ++
    (s.order_book.asks.take 3).map
      (fun e => book_feature_ratios s.order_book e.1 Side.S)
  let count := frs.length
  let avg := fun (g : FeatureRatios → ℚ) =>
    if 0 < count then ((frs.map g).sum) / (count : ℚ) else 0
  ⟨![((avg (fun fr => fr.cancel_r) : ℚ) : ℝ),
     ((avg (fun fr => fr.ping_r) : ℚ) : ℝ),
     ((avg (fun fr => fr.odd_lot_r) : ℚ) : ℝ),
     ((avg (fun fr => fr.precision_r) : ℚ) : ℝ),
     ((avg (fun fr => fr.resistance_r) : ℚ) : ℝ),
     ((s.trade_flow.get_imbalance : ℚ) : ℝ),
     ((s.spread_tracker.get_spread_change_rate : ℚ) : ℝ),
     ((MomentumTracker.get_momentum s.momentum_tracker : ℚ) : ℝ)]⟩

/-- `PerSymbolSim::eligible_for_fill`. -/
def eligible_for_fill (cfg : SimConfig) (quote_px exec_px : ℚ)
    (is_bid_side : Bool) : Bool :=
  if cfg.exec.fill_mode = FillMode.Match then
    decide (abs (quote_px - exec_px) < 1/1000000000000)
  else if is_bid_side = true then decide (exec_px ≤ quote_px)
  else decide (quote_px ≤ exec_px)

/-- `PerSymbolSim::update_virtual_order`.  Early return when nothing
changed; otherwise one latency draw, the exposure window on a price
change of a live order, a queue-position draw, and
`live := price > 0 && size > 0`. -/
def update_virtual_order (s : PerSymbolSim) (vo : VirtualOrder) (price : ℚ)
    (size : ℕ) (side : Side) (now_ns : ℕ) : VirtualOrder × PerSymbolSim :=
  if vo.live = true ∧ vo.price = price ∧ vo.size = size ∧ vo.remaining ≠ 0 then
    (vo, s)
  else
    let rl := sample_latency_ns s
    let latency_ns := rl.1
    let s := rl.2
    let vo :=
      if vo.live = true ∧ vo.price ≠ price then
        { vo with exposed_until_ns :=
            now_ns + s.config.exec.quote_exposure_window_us * 1000 }
      else vo
    let rq := calculate_queue_position s price side
    ({ vo with
      price := price
      size := size
      remaining := size
      queue_ahead := rq.1
      active_at_ns := now_ns + latency_ns
      live := decide (0 < price) && decide (0 < size) }, rq.2)

/-- `PerSymbolSim::update_queue_on_cancel`. -/
def update_queue_on_cancel (s : PerSymbolSim) (price : ℚ) (volume : ℕ)
    (side : Side) : PerSymbolSim :=
  let upd := fun (vo : VirtualOrder) (is_bid : Bool) =>
    if vo.live = false ∨ vo.queue_ahead = 0 then vo
    else if (is_bid = true ∧ side = Side.B) ∨ (is_bid = false ∧ side = Side.S) then
      if abs (vo.price - price) < 1/10000 then
        { vo with queue_ahead := vo.queue_ahead - volume }
      else vo
    else vo
  { s with
    baseline_state := { bid := upd s.baseline_state.bid true
                        ask := upd s.baseline_state.ask false }
    toxicity_state := { bid := upd s.toxicity_state.bid true
                        ask := upd s.toxicity_state.ask false } }

/-- Result of one `measure_adverse_selection` call: the surviving pending
fills, the (optional) completed list, the updated risk state, and the
trace of `online_model.update(features, label)` calls it makes, in
order. -/
structure MeasureResult where
  fills : List FillRecord
  completed : Option (List FillRecord)
  risk : SymbolRiskState
  calls : List (ToxicityFeatureVector × Bool)

/-- One iteration of the measuring loop of
`PerSymbolSim::measure_adverse_selection` (per_symbol_sim.cpp:157-191). -/
def measureFill (cfg : SimConfig) (current_mid : ℚ) (now_ns : ℕ)
    (f : FillRecord) (risk : SymbolRiskState) :
    FillRecord × SymbolRiskState × List (ToxicityFeatureVector × Bool) :=
  if f.adverse_measured = true then (f, risk, [])
  else if (now_ns - f.fill_time_ns) / 1000 < cfg.exec.adverse_lookforward_us then
    (f, risk, [])
  else
    let f := { f with adverse_measured := true }
    if current_mid ≤ 0 then (f, risk, [])
    else
      let price_change := current_mid - f.mid_price_at_fill
      let adverse_move := if f.is_buy = true then -price_change else price_change
      let pnl := -adverse_move * (f.fill_qty : ℚ) * cfg.exec.adverse_selection_multiplier
      let fr :=
        if 0 < adverse_move then
          ({ f with adverse_pnl := pnl },
           { risk with
             total_adverse_pnl := risk.total_adverse_pnl + pnl
             adverse_fills := risk.adverse_fills + 1 })
        else (f, risk)
      (fr.1, fr.2,
        if cfg.online_learning = true then
          [(f.features, decide (1/200 < adverse_move))]
        else [])

def measureLoop (cfg : SimConfig) (current_mid : ℚ) (now_ns : ℕ) :
    List FillRecord → SymbolRiskState →
    List FillRecord × SymbolRiskState × List (ToxicityFeatureVector × Bool)
  | [], risk => ([], risk, [])
  | f :: fs, risk =>
    let r1 := measureFill cfg current_mid now_ns f risk
    let r2 := measureLoop cfg current_mid now_ns fs r1.2.1
    (r1.1 :: r2.1, r2.2.1, r1.2.2 ++ r2.2.2)

/-- `PerSymbolSim::measure_adverse_selection` (per_symbol_sim.cpp:150-213):
the measuring loop, the emergency prune of oversized buffers, the move of
measured fills to the completed vector, and the erase. -/
def measure_adverse_selection (cfg : SimConfig) (b : OrderBook)
    (fills : List FillRecord) (completed : Option (List FillRecord))
    (risk : SymbolRiskState) (now_ns : ℕ) : MeasureResult :=
  let current_mid := b.stats.mid_price
  let r := measureLoop cfg current_mid now_ns fills risk
  let fills1 := r.1
  let fills2 :=
    if 10000 < fills1.length then
      fills1.enum.map (fun e =>
        if e.1 < fills1.length - 5000 then
          { e.2 with adverse_measured := true }
        else e.2)
    else fills1
  let completed2 :=
    match completed with
    | none => none
    | some c => some (c ++ fills2.filter (fun f => f.adverse_measured))
  ⟨fills2.filter (fun f => !f.adverse_measured), completed2, r.2.1, r.2.2⟩

/-- `PerSymbolSim::update_quotes` (per_symbol_sim.cpp:246-298). -/
noncomputable def update_quotes (s : PerSymbolSim) (now_ns : ℕ) :
    PerSymbolSim :=
  if now_ns - s.last_quote_update_ns < s.config.exec.quote_update_interval_us * 1000 then
    s
  else
    let s : PerSymbolSim := { s with last_quote_update_ns := now_ns }
    let bc : Option (List FillRecord) :=
      if s.config.output_dir = "" then none else some s.baseline_completed_fills
    let tc : Option (List FillRecord) :=
      if s.config.output_dir = "" then none else some s.toxicity_completed_fills
    let r1 : MeasureResult := measure_adverse_selection s.config s.order_book
      s.baseline_pending_fills bc s.baseline_risk now_ns
    let r2 : MeasureResult := measure_adverse_selection s.config s.order_book
      s.toxicity_pending_fills tc s.toxicity_risk now_ns
    let model : OnlineToxicityModel := (r1.calls ++ r2.calls).foldl
      (fun m c => m.update c.1 c.2) s.online_model
    let s := { s with
      baseline_pending_fills := r1.fills
      baseline_completed_fills := r1.completed.getD s.baseline_completed_fills
      baseline_risk := r1.risk
      toxicity_pending_fills := r2.fills
      toxicity_completed_fills := r2.completed.getD s.toxicity_completed_fills
      toxicity_risk := r2.risk
      online_model := model }
    let book_stats : BookStats := s.order_book.stats
    let s :=
      if 0 < book_stats.spread then
        { s with spread_tracker := s.spread_tracker.record_spread book_stats.spread }
      else s
    let s :=
      if 0 < book_stats.mid_price then
        { s with momentum_tracker :=
            MomentumTracker.record_mid s.momentum_tracker book_stats.mid_price }
      else s
    let elig : Bool := check_eligibility s
    let s := { s with eligible_to_trade := elig }
    if elig = false then s
    else
      let rb : SymbolRiskState × Bool := check_risk_limits s.config s.baseline_risk
      let s := { s with baseline_risk := rb.1 }
      if rb.2 = false then s
      else
        let rt : SymbolRiskState × Bool := check_risk_limits s.config s.toxicity_risk
        let s := { s with toxicity_risk := rt.1 }
        if rt.2 = false then s
        else
          let s :=
            if s.config.online_learning = true ∧ s.online_model.in_warmup = false then
              let fv := build_feature_vector s
              { s with mm_toxicity :=
                  set_override_toxicity s.mm_toxicity (s.online_model.predict fv) }
            else s
          let s := { s with mm_baseline := update_market_data s.mm_baseline s.order_book }
          let s := { s with mm_toxicity := update_market_data s.mm_toxicity s.order_book }
          let q_base : MarketMakerQuote := get_current_quotes s.mm_baseline
          let q_tox : MarketMakerQuote := get_current_quotes s.mm_toxicity
          let ub : VirtualOrder × PerSymbolSim := update_virtual_order s
            s.baseline_state.bid q_base.bid_price q_base.bid_size Side.B now_ns
          let s : PerSymbolSim :=
            { ub.2 with baseline_state := { ub.2.baseline_state with bid := ub.1 } }
          let ua : VirtualOrder × PerSymbolSim := update_virtual_order s
            s.baseline_state.ask q_base.ask_price q_base.ask_size Side.S now_ns
          let s : PerSymbolSim :=
            { ua.2 with baseline_state := { ua.2.baseline_state with ask := ua.1 } }
          let tb : VirtualOrder × PerSymbolSim := update_virtual_order s
            s.toxicity_state.bid q_tox.bid_price q_tox.bid_size Side.B now_ns
          let s : PerSymbolSim :=
            { tb.2 with toxicity_state := { tb.2.toxicity_state with bid := tb.1 } }
          let ta : VirtualOrder × PerSymbolSim := update_virtual_order s
            s.toxicity_state.ask q_tox.ask_price q_tox.ask_size Side.S now_ns
          { ta.2 with toxicity_state := { ta.2.toxicity_state with ask := ta.1 } }

def writeVo (st : StrategyExecState) (is_bid : Bool) (vo : VirtualOrder) :
    StrategyExecState :=
  if is_bid = true then { st with bid := vo } else { st with ask := vo }

/-- The `FillRecord` pushed by `try_fill_one`, built from the
post-`on_order_filled` strategy state and the pre-execution book. -/
noncomputable def fill_record_of (s : PerSymbolSim) (mm : MMStrat)
    (is_bid_side : Bool) (price : ℚ) (fill_qty now_ns : ℕ) : FillRecord :=
  let features := build_feature_vector s
  { fill_time_ns := now_ns
    fill_price := price
    fill_qty := fill_qty
    is_buy := is_bid_side
    mid_price_at_fill := s.order_book.stats.mid_price
    toxicity_at_fill :=
      if s.config.online_learning = true ∧ s.online_model.in_warmup = false then
        s.online_model.predict features
      else get_current_toxicity mm s.order_book
    adverse_measured := false
    adverse_pnl := 0
    features := features }

/-- `PerSymbolSim::try_fill_one` (per_symbol_sim.cpp:377-444).  Returns
the updated strategy, exec state, pending-fill list and risk state; the
queue consumption persists even when the fill quantity comes out zero. -/
noncomputable def try_fill_one (s : PerSymbolSim) (mm : MMStrat)
    (st : StrategyExecState) (pending_fills : List FillRecord)
    (risk : SymbolRiskState) (is_bid_side : Bool) (exec_price : ℚ)
    (exec_qty now_ns : ℕ) :
    MMStrat × StrategyExecState × List FillRecord × SymbolRiskState :=
  if risk.halted = true then (mm, st, pending_fills, risk)
  else
    let vo := if is_bid_side = true then st.bid else st.ask
    if vo.live = false ∨ vo.remaining = 0 then (mm, st, pending_fills, risk)
    else if now_ns < vo.active_at_ns then (mm, st, pending_fills, risk)
    else if eligible_for_fill s.config vo.price exec_price is_bid_side = false then
      (mm, st, pending_fills, risk)
    else
      let in_exposure_window := now_ns < vo.exposed_until_ns
      let consume :=
        if 0 < vo.queue_ahead ∧ ¬ in_exposure_window then
          min vo.queue_ahead exec_qty
        else 0
      let vo := { vo with queue_ahead := vo.queue_ahead - consume }
      let qty_left := exec_qty - consume
      if qty_left = 0 then (mm, writeVo st is_bid_side vo, pending_fills, risk)
      else
        let fill_qty := min vo.remaining qty_left
        if fill_qty = 0 then (mm, writeVo st is_bid_side vo, pending_fills, risk)
        else
          let vo := { vo with remaining := vo.remaining - fill_qty }
          let mm := on_order_filled mm is_bid_side vo.price fill_qty
          let risk := { risk with total_fills := risk.total_fills + 1 }
          let risk := risk.update_inventory_variance (get_inventory mm)
          (mm, writeVo st is_bid_side vo,
           pending_fills ++ [fill_record_of s mm is_bid_side vo.price fill_qty now_ns],
           risk)

/-- `PerSymbolSim::maybe_fill_on_execution` (per_symbol_sim.cpp:446-467). -/
noncomputable def maybe_fill_on_execution (s : PerSymbolSim)
    (resting_side : Side) (exec_price : ℚ) (exec_qty now_ns : ℕ) :
    PerSymbolSim :=
  let s := update_quotes s now_ns
  if s.eligible_to_trade = false then s
  else
    let is_bid := resting_side = Side.B
    let rB := try_fill_one s s.mm_baseline s.baseline_state
      s.baseline_pending_fills s.baseline_risk (decide is_bid) exec_price exec_qty now_ns
    let s := { s with
      mm_baseline := rB.1
      baseline_state := rB.2.1
      baseline_pending_fills := rB.2.2.1
      baseline_risk := rB.2.2.2 }
    let rT := try_fill_one s s.mm_toxicity s.toxicity_state
      s.toxicity_pending_fills s.toxicity_risk (decide is_bid) exec_price exec_qty now_ns
    { s with
      mm_toxicity := rT.1
      toxicity_state := rT.2.1
      toxicity_pending_fills := rT.2.2.1
      toxicity_risk := rT.2.2.2 }

/-- `PerSymbolSim::on_add` (per_symbol_sim.cpp:299-328). -/
def on_add (s : PerSymbolSim) (order_id : ℕ) (price : ℚ) (volume : ℕ)
    (side : Side) (now_ns : ℕ) : PerSymbolSim :=
  let s := { s with order_info := oiSet s.order_info order_id ⟨side, price, volume, now_ns⟩ }
  let s := { s with order_book := add_order s.order_book order_id price volume side }
  if 10000000000 < now_ns - s.last_cleanup_ns then
    { s with
      last_cleanup_ns := now_ns
      order_info := s.order_info.filter
        (fun e => !(decide (60000000000 < now_ns - e.2.add_time_ns))) }
  else s

/-- `PerSymbolSim::on_modify` (per_symbol_sim.cpp:330-342). -/
def on_modify (s : PerSymbolSim) (order_id : ℕ) (price : ℚ) (volume : ℕ) :
    PerSymbolSim :=
  let s :=
    match oiFind s.order_info order_id with
    | some info =>
      let s :=
        if 1/10000 < abs (info.price - price) then
          update_queue_on_cancel s info.price info.volume info.side
        else s
      let info2 : OrderInfo := { info with price := price, volume := volume }
      { s with order_info := oiSet s.order_info order_id info2 }
    | none => s
  { s with order_book := modify_order s.order_book order_id price volume }

/-- `PerSymbolSim::on_delete` (per_symbol_sim.cpp:363-372). -/
def on_delete (s : PerSymbolSim) (order_id : ℕ) : PerSymbolSim :=
  let s :=
    match oiFind s.order_info order_id with
    | some info =>
      let s := update_queue_on_cancel s info.price info.volume info.side
      { s with order_info := oiErase s.order_info order_id }
    | none => s
  { s with order_book := delete_order s.order_book order_id }

/-- `PerSymbolSim::on_replace` (per_symbol_sim.cpp:374-388 region). -/
def on_replace (s : PerSymbolSim) (old_order_id new_order_id : ℕ)
    (price : ℚ) (volume : ℕ) (side : Side) (now_ns : ℕ) : PerSymbolSim :=
  let s :=
    match oiFind s.order_info old_order_id with
    | some info =>
      let s := update_queue_on_cancel s info.price info.volume info.side
      { s with order_info := oiErase s.order_info old_order_id }
    | none => s
  let oi2 : OrderInfoMap :=
    oiSet s.order_info new_order_id ⟨side, price, volume, now_ns⟩
  let s := { s with order_info := oi2 }
  let s := { s with order_book := delete_order s.order_book old_order_id }
  { s with order_book := add_order s.order_book new_order_id price volume side }

/-- `PerSymbolSim::on_execute` (per_symbol_sim.cpp:469-488): the fill
pass (`maybe_fill_on_execution`) runs BEFORE `execute_order` mutates the
book; the `order_info` volume bookkeeping happens in between. -/
noncomputable def on_execute (s : PerSymbolSim) (order_id exec_qty : ℕ)
    (exec_price : ℚ) (now_ns : ℕ) : PerSymbolSim :=
  let s :=
    match oiFind s.order_info order_id with
    | none => s
    | some info =>
      let s := { s with trade_flow :=
          s.trade_flow.record_trade (decide (info.side = Side.B)) exec_qty }
      let s := maybe_fill_on_execution s info.side exec_price exec_qty now_ns
      if exec_qty < info.volume then
        let info2 : OrderInfo := { info with volume := info.volume - exec_qty }
        { s with order_info := oiSet s.order_info order_id info2 }
      else { s with order_info := oiErase s.order_info order_id }
  { s with order_book := execute_order s.order_book order_id exec_qty exec_price }

/-- C10: a default-constructed virtual order is not live; after any
`update_virtual_order` call on a virtual order satisfying the liveness
invariant (live orders have positive price and size — true initially and
preserved by every mutation in the simulator), the order is live exactly
when its quote has positive price and positive size; and `try_fill_one`
on a non-live side is a complete no-op, so a side whose quote size was
zeroed cannot fill until re-quoted with positive price and size. -/
theorem c10_live_iff_positive_quote :
    (({} : VirtualOrder).live = false) ∧
    (∀ (s : PerSymbolSim) (vo : VirtualOrder) (price : ℚ) (size : ℕ)
        (side : Side) (now_ns : ℕ),
      (vo.live = true → 0 < vo.price ∧ 0 < vo.size) →
      ((update_virtual_order s vo price size side now_ns).1.live = true ↔
        0 < (update_virtual_order s vo price size side now_ns).1.price ∧
          0 < (update_virtual_order s vo price size side now_ns).1.size)) ∧
    (∀ (s : PerSymbolSim) (mm : MMStrat) (st : StrategyExecState)
        (pending : List FillRecord) (risk : SymbolRiskState) (is_bid : Bool)
        (px : ℚ) (qty now_ns : ℕ),
      (if is_bid = true then st.bid else st.ask).live = false →
      try_fill_one s mm st pending risk is_bid px qty now_ns =
        (mm, st, pending, risk)) := by
  refine ⟨rfl, ?_, ?_⟩
  · intro s vo price size side now_ns hpre
    rw [update_virtual_order]
    by_cases h : vo.live = true ∧ vo.price = price ∧ vo.size = size ∧ vo.remaining ≠ 0
    · rw [if_pos h]
      obtain ⟨h1, h2, h3, _⟩ := h
      have hps := hpre h1
      constructor
      · intro _
        exact ⟨h2 ▸ hps.1, h3 ▸ hps.2⟩
      · intro _
        exact h1
    · rw [if_neg h]
      show (decide (0 < price) && decide (0 < size)) = true ↔ 0 < price ∧ 0 < size
      simp
  · intro s mm st pending risk is_bid px qty now_ns h
    rw [try_fill_one]
    by_cases hh : risk.halted = true
    · rw [if_pos hh]
    · rw [if_neg hh]
      show (if (if is_bid = true then st.bid else st.ask).live = false ∨
          (if is_bid = true then st.bid else st.ask).remaining = 0 then
          (mm, st, pending, risk) else _) = (mm, st, pending, risk)
      rw [if_pos (Or.inl h)]

/-- Concrete instantiation of C10: a fresh quote of price 10 and size 100
on a default virtual order, and a no-fill attempt against a default
(non-live) strategy state. -/
theorem c10_live_iff_positive_quote_witness :
    ((update_virtual_order {} {} 10 100 Side.B 0).1.live = true ↔
      0 < (update_virtual_order {} {} 10 100 Side.B 0).1.price ∧
        0 < (update_virtual_order {} {} 10 100 Side.B 0).1.size) ∧
    (try_fill_one {} { use_toxicity_screen := false } {} [] {} true 11 5 0 =
      ({ use_toxicity_screen := false }, {}, [], ({} : SymbolRiskState))) :=
  ⟨c10_live_iff_positive_quote.2.1 {} {} 10 100 Side.B 0 (by decide),
   c10_live_iff_positive_quote.2.2 {} { use_toxicity_screen := false } {} [] {}
     true 11 5 0 (by decide)⟩

/-- C6: under the `try_fill_one` gates — strategy not halted, virtual
order live with shares remaining, past its latency activation, price
eligible — an EXECUTE of `qty` shares first consumes
`min(queue_ahead, qty)` from the queue ahead (no consumption inside the
exposure window or when the queue is empty), then fills
`min(remaining, qty - consumed)` shares, appending exactly one fill
record for that quantity when it is positive and none otherwise. -/
theorem c6_queue_discipline (s : PerSymbolSim) (mm : MMStrat)
    (st : StrategyExecState) (pending : List FillRecord)
    (risk : SymbolRiskState) (is_bid : Bool) (px : ℚ) (qty now_ns : ℕ)
    (vo : VirtualOrder) (consume fill_qty : ℕ)
    (hvo : vo = (if is_bid = true then st.bid else st.ask))
    (hh : risk.halted = false)
    (hlive : vo.live = true)
    (hrem : vo.remaining ≠ 0)
    (hact : vo.active_at_ns ≤ now_ns)
    (helig : eligible_for_fill s.config vo.price px is_bid = true)
    (hcons : consume = if 0 < vo.queue_ahead ∧ ¬ (now_ns < vo.exposed_until_ns)
      then min vo.queue_ahead qty else 0)
    (hfq : fill_qty = min vo.remaining (qty - consume)) :
    ((if is_bid = true
        then (try_fill_one s mm st pending risk is_bid px qty now_ns).2.1.bid
        else (try_fill_one s mm st pending risk is_bid px qty now_ns).2.1.ask).queue_ahead
      = vo.queue_ahead - consume) ∧
    ((if is_bid = true
        then (try_fill_one s mm st pending risk is_bid px qty now_ns).2.1.bid
        else (try_fill_one s mm st pending risk is_bid px qty now_ns).2.1.ask).remaining
      = vo.remaining - fill_qty) ∧
    ((try_fill_one s mm st pending risk is_bid px qty now_ns).2.2.1 =
      if fill_qty = 0 then pending
      else pending ++ [fill_record_of s (on_order_filled mm is_bid vo.price fill_qty)
        is_bid vo.price fill_qty now_ns]) := by
  have c1 : (risk.halted = true) = False := by simp [hh]
  cases is_bid
  · simp only [Bool.false_eq_true, if_false] at hvo helig ⊢
    subst hvo
    have c2 : (st.ask.live = false ∨ st.ask.remaining = 0) = False := by
      simp [hlive, hrem]
    have c3 : (now_ns < st.ask.active_at_ns) = False := by
      simp [Nat.not_lt.mpr hact]
    have c4 : (eligible_for_fill s.config st.ask.price px false = false) = False := by
      simp [helig]
    rw [try_fill_one]
    simp only [Bool.false_eq_true, if_false, c1, c2, c3, c4, if_true]
    rw [← hcons]
    by_cases hq : qty - consume = 0
    · rw [if_pos hq]
      refine ⟨rfl, ?_, ?_⟩
      · show st.ask.remaining = st.ask.remaining - fill_qty
        omega
      · rw [if_pos (by omega)]
    · rw [if_neg hq]
      have hfq2 : min ({ st.ask with queue_ahead := st.ask.queue_ahead - consume }).remaining
          (qty - consume) = fill_qty := by
        show min st.ask.remaining (qty - consume) = fill_qty
        omega
      rw [hfq2]
      have hfqz : (fill_qty = 0) = False := by
        have : fill_qty ≠ 0 := by omega
        simp [this]
      simp only [hfqz, if_false]
      refine ⟨?_, ?_, ?_⟩ <;> first
        | rfl
        | trivial
  · simp only [if_true] at hvo helig ⊢
    subst hvo
    have c2 : (st.bid.live = false ∨ st.bid.remaining = 0) = False := by
      simp [hlive, hrem]
    have c3 : (now_ns < st.bid.active_at_ns) = False := by
      simp [Nat.not_lt.mpr hact]
    have c4 : (eligible_for_fill s.config st.bid.price px true = false) = False := by
      simp [helig]
    rw [try_fill_one]
    simp only [if_true, c1, c2, c3, c4, if_false]
    rw [← hcons]
    by_cases hq : qty - consume = 0
    · rw [if_pos hq]
      refine ⟨rfl, ?_, ?_⟩
      · show st.bid.remaining = st.bid.remaining - fill_qty
        omega
      · rw [if_pos (by omega)]
    · rw [if_neg hq]
      have hfq2 : min ({ st.bid with queue_ahead := st.bid.queue_ahead - consume }).remaining
          (qty - consume) = fill_qty := by
        show min st.bid.remaining (qty - consume) = fill_qty
        omega
      rw [hfq2]
      have hfqz : (fill_qty = 0) = False := by
        have : fill_qty ≠ 0 := by omega
        simp [this]
      simp only [hfqz, if_false]
      refine ⟨?_, ?_, ?_⟩ <;> first
        | rfl
        | trivial

noncomputable def c6_sim : PerSymbolSim := {}

noncomputable def c6_mm : MMStrat := { use_toxicity_screen := false }

def c6_ask : VirtualOrder :=
  { price := 11, size := 300, remaining := 100, queue_ahead := 200, live := true }

def c6_st : StrategyExecState := { ask := c6_ask }

def c6_ask2 : VirtualOrder :=
  { price := 11, size := 300, remaining := 50, queue_ahead := 0, live := true }

/-- Scenario S4 concretely: a live virtual ask with 200 shares queued
ahead and 100 remaining takes an EXECUTE of 250 (queue drains to 0, 50
shares fill), then an EXECUTE of 300 drains the remaining 50. -/
theorem c6_queue_discipline_witness :
    (try_fill_one c6_sim c6_mm c6_st [] {} false 11 250 0).2.1.ask.queue_ahead = 0 ∧
    (try_fill_one c6_sim c6_mm c6_st [] {} false 11 250 0).2.1.ask.remaining = 50 ∧
    (try_fill_one c6_sim c6_mm c6_st [] {} false 11 250 0).2.2.1 =
      [fill_record_of c6_sim (on_order_filled c6_mm false 11 50) false 11 50 0] ∧
    (try_fill_one c6_sim
        (try_fill_one c6_sim c6_mm c6_st [] {} false 11 250 0).1
        (try_fill_one c6_sim c6_mm c6_st [] {} false 11 250 0).2.1
        (try_fill_one c6_sim c6_mm c6_st [] {} false 11 250 0).2.2.1
        (try_fill_one c6_sim c6_mm c6_st [] {} false 11 250 0).2.2.2
        false 11 300 0).2.1.ask.remaining = 0 := by
  refine ⟨?_, ?_, ?_, ?_⟩
  · exact (c6_queue_discipline c6_sim c6_mm c6_st [] {} false 11 250 0
      c6_ask 200 50 rfl rfl rfl (by decide) (by decide) (by decide)
      (by decide) (by decide)).1
  · exact (c6_queue_discipline c6_sim c6_mm c6_st [] {} false 11 250 0
      c6_ask 200 50 rfl rfl rfl (by decide) (by decide) (by decide)
      (by decide) (by decide)).2.1
  · exact (c6_queue_discipline c6_sim c6_mm c6_st [] {} false 11 250 0
      c6_ask 200 50 rfl rfl rfl (by decide) (by decide) (by decide)
      (by decide) (by decide)).2.2
  · exact (c6_queue_discipline c6_sim
      (try_fill_one c6_sim c6_mm c6_st [] {} false 11 250 0).1
      (try_fill_one c6_sim c6_mm c6_st [] {} false 11 250 0).2.1
      (try_fill_one c6_sim c6_mm c6_st [] {} false 11 250 0).2.2.1
      (try_fill_one c6_sim c6_mm c6_st [] {} false 11 250 0).2.2.2
      false 11 300 0 c6_ask2 0 50 (by decide) (by decide) (by decide)
      (by decide) (by decide) (by decide) (by decide) (by decide)).2.1

lemma measureFill_calls (cfg : SimConfig) (mid : ℚ) (now_ns : ℕ)
    (f : FillRecord) (risk : SymbolRiskState) :
    (measureFill cfg mid now_ns f risk).2.2 =
      if cfg.online_learning = true ∧ 0 < mid ∧ f.adverse_measured = false ∧
          cfg.exec.adverse_lookforward_us ≤ (now_ns - f.fill_time_ns) / 1000 then
        [(f.features, decide (1/200 <
          (if f.is_buy = true then -(mid - f.mid_price_at_fill)
           else mid - f.mid_price_at_fill)))]
      else [] := by
  rw [measureFill]
  by_cases h1 : f.adverse_measured = true
  · rw [if_pos h1]
    rw [if_neg (fun hcon => by rw [h1] at hcon; exact absurd hcon.2.2.1 (by simp))]
  · rw [if_neg h1]
    by_cases h2 : (now_ns - f.fill_time_ns) / 1000 < cfg.exec.adverse_lookforward_us
    · rw [if_pos h2]
      rw [if_neg (fun hcon => absurd hcon.2.2.2 (by omega))]
    · rw [if_neg h2]
      dsimp only
      by_cases h3 : mid ≤ 0
      · rw [if_pos h3]
        rw [if_neg (fun hcon => absurd hcon.2.1 (not_lt.mpr h3))]
      · rw [if_neg h3]
        by_cases h4 : cfg.online_learning = true
        · have hc : cfg.online_learning = true ∧ 0 < mid ∧
              f.adverse_measured = false ∧
              cfg.exec.adverse_lookforward_us ≤ (now_ns - f.fill_time_ns) / 1000 :=
            ⟨h4, not_le.mp h3, Bool.eq_false_iff.mpr h1, Nat.not_lt.mp h2⟩
          rw [if_pos h4, if_pos hc]
        · have hc : ¬ (cfg.online_learning = true ∧ 0 < mid ∧
              f.adverse_measured = false ∧
              cfg.exec.adverse_lookforward_us ≤ (now_ns - f.fill_time_ns) / 1000) :=
            fun hcon => h4 hcon.1
          rw [if_neg h4, if_neg hc]

lemma measureLoop_calls (cfg : SimConfig) (mid : ℚ) (now_ns : ℕ) :
    ∀ (fills : List FillRecord) (risk : SymbolRiskState),
    (measureLoop cfg mid now_ns fills risk).2.2 =
      if cfg.online_learning = true ∧ 0 < mid then
        (fills.filter (fun f => !f.adverse_measured &&
            decide (cfg.exec.adverse_lookforward_us ≤ (now_ns - f.fill_time_ns) / 1000))).map
          (fun f => (f.features, decide (1/200 <
            (if f.is_buy = true then -(mid - f.mid_price_at_fill)
             else mid - f.mid_price_at_fill))))
      else []
  | [], risk => by
    rw [measureLoop]
    simp
  | f :: fs, risk => by
    rw [measureLoop]
    dsimp only
    rw [measureFill_calls, measureLoop_calls cfg mid now_ns fs]
    by_cases hon : cfg.online_learning = true ∧ 0 < mid
    · rw [if_pos hon, if_pos hon]
      by_cases hf : f.adverse_measured = false ∧
          cfg.exec.adverse_lookforward_us ≤ (now_ns - f.fill_time_ns) / 1000
      · rw [if_pos ⟨hon.1, hon.2, hf.1, hf.2⟩]
        rw [List.filter_cons_of_pos (by simp [hf.1, hf.2])]
        simp
      · rw [if_neg (fun hcon => hf ⟨hcon.2.2.1, hcon.2.2.2⟩)]
        rw [List.filter_cons_of_neg (by
          simp only [Bool.and_eq_true, Bool.not_eq_true', decide_eq_true_eq]
          intro hcon
          exact hf ⟨hcon.1, hcon.2⟩)]
        simp
    · rw [if_neg hon, if_neg hon,
        if_neg (fun hcon => hon ⟨hcon.1, hcon.2.1⟩)]
      simp

/-- C5: amended characterization of the online-update calls made by one
`measure_adverse_selection` pass: when online learning is active AND the
current mid price is positive, there is exactly one
`model.update(features, adverse_move > 0.005)` call per not-yet-measured
fill whose lookforward window has elapsed, in buffer order; otherwise
(online learning off, or mid price not positive) there are none — even
though due fills still become measured.  Fills marked measured by the
emergency prune also trigger no call. -/
theorem c5_update_calls (cfg : SimConfig) (b : OrderBook)
    (fills : List FillRecord) (completed : Option (List FillRecord))
    (risk : SymbolRiskState) (now_ns : ℕ) :
    (measure_adverse_selection cfg b fills completed risk now_ns).calls =
      if cfg.online_learning = true ∧ 0 < b.stats.mid_price then
        (fills.filter (fun f => !f.adverse_measured &&
            decide (cfg.exec.adverse_lookforward_us ≤ (now_ns - f.fill_time_ns) / 1000))).map
          (fun f => (f.features, decide (1/200 <
            (if f.is_buy = true then -(b.stats.mid_price - f.mid_price_at_fill)
             else b.stats.mid_price - f.mid_price_at_fill))))
      else [] := by
  rw [measure_adverse_selection.eq_def]
  dsimp only
  exact measureLoop_calls cfg b.stats.mid_price now_ns fills risk

noncomputable def c5_cfg : SimConfig := { online_learning := true }

noncomputable def c5_fill : FillRecord :=
  { fill_time_ns := 0, fill_price := 10, fill_qty := 100, is_buy := true,
    mid_price_at_fill := 10 }

/-- A due pending fill measured against a book with no valid mid price
(empty book, `mid_price = 0`): the fill becomes measured and moves to the
completed list, yet the pass makes no `model.update` call even though
online learning is active — refuting the claim that every fill that
becomes measured triggers exactly one update call. -/
theorem c5_measured_fill_without_update :
    c5_cfg.online_learning = true ∧
    (measure_adverse_selection c5_cfg OrderBook.empty [c5_fill] (some [])
      {} 250000000).completed = some [{ c5_fill with adverse_measured := true }] ∧
    (measure_adverse_selection c5_cfg OrderBook.empty [c5_fill] (some [])
      {} 250000000).fills = [] ∧
    (measure_adverse_selection c5_cfg OrderBook.empty [c5_fill] (some [])
      {} 250000000).calls = [] :=
  ⟨rfl, rfl, rfl, rfl⟩

lemma popDraw_book (s : PerSymbolSim) : (popDraw s).2.order_book = s.order_book := by
  rcases hd : s.draws with _ | ⟨d, ds⟩ <;> simp [popDraw, hd]

lemma sample_latency_ns_book (s : PerSymbolSim) :
    (sample_latency_ns s).2.order_book = s.order_book := by
  rw [sample_latency_ns]
  dsimp only
  exact popDraw_book s

lemma calculate_queue_position_book (s : PerSymbolSim) (p : ℚ) (sd : Side) :
    (calculate_queue_position s p sd).2.order_book = s.order_book := by
  rw [calculate_queue_position.eq_def]
  dsimp only
  split
  · rfl
  · exact popDraw_book s

lemma update_virtual_order_book (s : PerSymbolSim) (vo : VirtualOrder)
    (p : ℚ) (sz : ℕ) (sd : Side) (now_ns : ℕ) :
    (update_virtual_order s vo p sz sd now_ns).2.order_book = s.order_book := by
  rw [update_virtual_order]
  split
  · rfl
  · dsimp only
    rw [calculate_queue_position_book, sample_latency_ns_book]

lemma update_quotes_book (s : PerSymbolSim) (now_ns : ℕ) :
    (update_quotes s now_ns).order_book = s.order_book := by
  rw [update_quotes]
  split
  · rfl
  · dsimp only
    repeat' split
    all_goals simp only [update_virtual_order_book]

lemma maybe_fill_on_execution_book (s : PerSymbolSim) (sd : Side) (px : ℚ)
    (qty now_ns : ℕ) :
    (maybe_fill_on_execution s sd px qty now_ns).order_book = s.order_book := by
  rw [maybe_fill_on_execution]
  dsimp only
  split
  · exact update_quotes_book s now_ns
  · exact update_quotes_book s now_ns

/-- C4 (amended): the book mutation of an EXECUTE commutes out — the fill
pass never touches the order book, so the post-handler book is
`execute_order` applied to the pre-handler book even though the code runs
`maybe_fill_on_execution` FIRST (on the pre-execution book, contrary to
the claimed order); and EXECUTE is indeed the only event type that can
append to a pending-fill buffer: the ADD, MODIFY, DELETE and REPLACE
handlers leave both pending-fill buffers unchanged. -/
theorem c4_execute_ordering (s : PerSymbolSim) :
    (∀ (id qty : ℕ) (px : ℚ) (now_ns : ℕ),
      (on_execute s id qty px now_ns).order_book =
        execute_order s.order_book id qty px) ∧
    (∀ (id : ℕ) (p : ℚ) (v : ℕ) (sd : Side) (now_ns : ℕ),
      (on_add s id p v sd now_ns).baseline_pending_fills = s.baseline_pending_fills ∧
      (on_add s id p v sd now_ns).toxicity_pending_fills = s.toxicity_pending_fills) ∧
    (∀ (id : ℕ) (p : ℚ) (v : ℕ),
      (on_modify s id p v).baseline_pending_fills = s.baseline_pending_fills ∧
      (on_modify s id p v).toxicity_pending_fills = s.toxicity_pending_fills) ∧
    (∀ (id : ℕ),
      (on_delete s id).baseline_pending_fills = s.baseline_pending_fills ∧
      (on_delete s id).toxicity_pending_fills = s.toxicity_pending_fills) ∧
    (∀ (oldId newId : ℕ) (p : ℚ) (v : ℕ) (sd : Side) (now_ns : ℕ),
      (on_replace s oldId newId p v sd now_ns).baseline_pending_fills =
        s.baseline_pending_fills ∧
      (on_replace s oldId newId p v sd now_ns).toxicity_pending_fills =
        s.toxicity_pending_fills) := by
  refine ⟨?_, ?_, ?_, ?_, ?_⟩
  · intro id qty px now_ns
    rcases hfind : oiFind s.order_info id with _ | info
    · rw [on_execute.eq_def, hfind]
    · rw [on_execute.eq_def, hfind]
      dsimp only
      split <;> simp only [maybe_fill_on_execution_book]
  · intro id p v sd now_ns
    rw [on_add]
    dsimp only
    split <;> exact ⟨rfl, rfl⟩
  · intro id p v
    rcases hfind : oiFind s.order_info id with _ | info
    · rw [on_modify.eq_def, hfind]
      exact ⟨rfl, rfl⟩
    · rw [on_modify.eq_def, hfind]
      dsimp only
      split <;> exact ⟨rfl, rfl⟩
  · intro id
    rcases hfind : oiFind s.order_info id with _ | info
    · rw [on_delete.eq_def, hfind]
      exact ⟨rfl, rfl⟩
    · rw [on_delete.eq_def, hfind]
      exact ⟨rfl, rfl⟩
  · intro oldId newId p v sd now_ns
    rcases hfind : oiFind s.order_info oldId with _ | info
    · rw [on_replace.eq_def, hfind]
      exact ⟨rfl, rfl⟩
    · rw [on_replace.eq_def, hfind]
      exact ⟨rfl, rfl⟩

/-- Modelled from the claim C4 wording: the same EXECUTE handler but with
the order book mutated by `execute_order` BEFORE `maybe_fill_on_execution`
runs (the bookkeeping mirrors `on_execute` otherwise). -/
noncomputable def c4_spec_on_execute (s : PerSymbolSim)
    (order_id exec_qty : ℕ) (exec_price : ℚ) (now_ns : ℕ) : PerSymbolSim :=
  match oiFind s.order_info order_id with
  | none => { s with order_book := execute_order s.order_book order_id exec_qty exec_price }
  | some info =>
    let s := { s with order_book := execute_order s.order_book order_id exec_qty exec_price }
    let s := { s with trade_flow :=
        s.trade_flow.record_trade (decide (info.side = Side.B)) exec_qty }
    let s := maybe_fill_on_execution s info.side exec_price exec_qty now_ns
    if exec_qty < info.volume then
      let info2 : OrderInfo := { info with volume := info.volume - exec_qty }
      { s with order_info := oiSet s.order_info order_id info2 }
    else { s with order_info := oiErase s.order_info order_id }

def c4_book : OrderBook :=
  { bids := [(10, 5)]
    asks := [(12, 5)]
    active_orders := [(1, ⟨1, 10, 5, Side.B⟩), (2, ⟨2, 12, 5, Side.S⟩)]
    total_bid_volume := 5
    total_ask_volume := 5
    stats := { best_bid := 10, best_ask := 12, spread := 2, mid_price := 11
               total_bid_qty := 5, total_ask_qty := 5
               bid_levels := 1, ask_levels := 1 } }

noncomputable def c4_sim : PerSymbolSim :=
  { order_book := c4_book
    order_info := [(2, ⟨Side.S, 12, 5, 0⟩)]
    config := { exec := { min_spread_to_trade := 1, max_spread_to_trade := 3 } } }

/-- The EXECUTE that fully removes the only ask level, handled by the real
`on_execute` and by the spec-ordered variant: the real handler runs the
quote pass against the pre-execution book (spread 2, recorded into the
spread tracker), while the spec ordering would run it against the
post-execution book (no ask side, spread 0, nothing recorded) — so the
order book is NOT mutated before `maybe_fill_on_execution` runs. -/
theorem c4_fill_pass_sees_pre_execution_book :
    (on_execute c4_sim 2 5 12 1000000).spread_tracker.count = 1 ∧
    (c4_spec_on_execute c4_sim 2 5 12 1000000).spread_tracker.count = 0 :=
  ⟨rfl, rfl⟩
